import Mathlib

/-!
# Verification of the dns402 protocol core

A shallow embedding of the dns402 repository (TypeScript): the DNS TXT
record codec (`src/core/dns.ts`), the on-chain payment verifier
(`src/core/solana.ts`), the Express server gate (`src/server/middleware.ts`)
and the client orchestrator (`src/client/client.ts`), together with proofs
about the record round-trip, the session store, the gate state machine and
the single-retry client flow.

Strings are modelled as `List Char`; JavaScript numbers as `ℚ`, with
`Option ℚ` where `NaN` can arise (`none` models `NaN`).  JavaScript
builtins used by the source (`String.prototype.split`, `trim`,
`parseFloat`, `parseInt`, number-to-string) are modelled explicitly below.
-/

set_option maxRecDepth 4000

/-- Strings of the embedded program. -/
abbrev S := List Char

/-- Coerce a Lean string literal to the embedded string type. -/
def str (s : String) : S := s.data

/-! ## JavaScript string builtins -/

/-- Models `String.prototype.split` with a single-character separator. -/
def jsSplit (sep : Char) : S → List S
  | [] => [[]]
  | c :: cs =>
    match jsSplit sep cs with
    | [] => [[]]
    | h :: t => if c = sep then [] :: h :: t else (c :: h) :: t

/-- Models `Array.prototype.join` with a separator string. -/
def joinSep (sep : S) : List S → S
  | [] => []
  | [p] => p
  | p :: q :: ps => p ++ sep ++ joinSep sep (q :: ps)

/-- The whitespace characters relevant to `String.prototype.trim` here. -/
def isWS (c : Char) : Bool := c = ' ' || c = '\t' || c = '\n' || c = '\r'

/-- Models `String.prototype.trim`. -/
def jsTrim (cs : S) : S := ((cs.dropWhile isWS).reverse.dropWhile isWS).reverse

/-! ## JavaScript objects / Map as association lists (last write wins) -/

/-- Read a key from an object / `Map` model. -/
def mapGet {α : Type} (m : List (S × α)) (k : S) : Option α :=
  (m.find? (fun e => decide (e.1 = k))).map (·.2)

/-- Write a key in an object / `Map` model, overwriting any previous entry. -/
def mapSet {α : Type} (m : List (S × α)) (k : S) (v : α) : List (S × α) :=
  (k, v) :: m.filter (fun e => decide (e.1 ≠ k))

/-- JavaScript truthiness of an optional string (`undefined` and `""` are falsy). -/
def jsTruthy (o : Option S) : Bool :=
  match o with
  | some s => decide (s ≠ [])
  | none => false

/-! ## JavaScript numbers: parseFloat / parseInt / toString models -/

/-- Numeric value of a decimal digit character, if it is one. -/
def digitVal? (c : Char) : Option ℕ :=
  if '0' ≤ c ∧ c ≤ '9' then some (c.toNat - 48) else none

/-- Longest digit run at the head of the input, with the remainder. -/
def takeDigits : S → List ℕ × S
  | [] => ([], [])
  | c :: cs =>
    match digitVal? c with
    | some d =>
      match takeDigits cs with
      | (ds, rest) => (d :: ds, rest)
    | none => ([], c :: cs)

/-- Value of a big-endian digit list. -/
def digitsVal (ds : List ℕ) : ℕ := ds.foldl (fun a d => 10 * a + d) 0

/-- Leading sign of a JavaScript numeric literal (`true` means negative). -/
def parseNeg (cs : S) : Bool × S :=
  match cs with
  | [] => (false, [])
  | c :: r => if c = '-' then (true, r) else if c = '+' then (false, r) else (false, c :: r)

/-- Unsigned decimal mantissa `digits [. digits]` (at least one digit), plus remainder. -/
def parseMantissa (cs : S) : Option (ℚ × S) :=
  match takeDigits cs with
  | (ds, r1) =>
    match r1 with
    | '.' :: r2 =>
      match takeDigits r2 with
      | (fs, r3) =>
        if ds = [] ∧ fs = [] then none
        else some ((digitsVal ds : ℚ) + (digitsVal fs : ℚ) / (10 : ℚ) ^ fs.length, r3)
    | _ => if ds = [] then none else some ((digitsVal ds : ℚ), r1)

/-- Optional exponent suffix `e[sign]digits`; a malformed exponent is ignored. -/
def parseExp (cs : S) : ℤ × S :=
  match cs with
  | 'e' :: rest | 'E' :: rest =>
    match parseNeg rest with
    | (neg, rest2) =>
      match takeDigits rest2 with
      | ([], _) => (0, cs)
      | (ds, r3) => ((if neg then -1 else 1) * (digitsVal ds : ℤ), r3)
  | _ => (0, cs)

/-- Models JavaScript `parseFloat` on finite decimal literals: the longest
numeric head of the input is parsed, trailing text is ignored, and `none`
models `NaN`.  (The `Infinity` literal, irrelevant to this codec, is not
modelled.) -/
def parseFloatQ (cs : S) : Option ℚ :=
  match parseNeg cs with
  | (neg, cs1) =>
    match parseMantissa cs1 with
    | none => none
    | some (m, rest) =>
      match parseExp rest with
      | (e, _) => some ((if neg then -1 else 1) * m * (10 : ℚ) ^ e)

/-- Models JavaScript `parseInt(x, 10)`: longest integer head, `none` for `NaN`. -/
def parseIntZ (cs : S) : Option ℤ :=
  match parseNeg cs with
  | (neg, cs1) =>
    match takeDigits cs1 with
    | ([], _) => none
    | (ds, _) => some ((if neg then -1 else 1) * (digitsVal ds : ℤ))

/-- Fuel-based little-endian decimal digit extraction (structural recursion,
so that the kernel can evaluate it). -/
def natDigitsRevAux : ℕ → ℕ → List ℕ
  | 0, _ => []
  | fuel + 1, n => if n = 0 then [] else n % 10 :: natDigitsRevAux fuel (n / 10)

/-- Little-endian decimal digits of a natural number (empty for zero). -/
def natDigitsRev (n : ℕ) : List ℕ := natDigitsRevAux n n

/-- Big-endian decimal digits of a natural number (`[0]` for zero). -/
def natDigitsN (n : ℕ) : List ℕ :=
  if n = 0 then [0] else (natDigitsRev n).reverse

/-- Character of a decimal digit. -/
def digitChar (d : ℕ) : Char := Char.ofNat (48 + d)

/-- Models JavaScript number-to-string for natural numbers. -/
def natToChars (n : ℕ) : S := (natDigitsN n).map digitChar

/-- Models JavaScript number-to-string for integers. -/
def intToChars (z : ℤ) : S := if z < 0 then '-' :: natToChars z.natAbs else natToChars z.toNat

/-- Smallest exponent `k` with `den ∣ 10 ^ k`, when one exists. -/
def decExp (den : ℕ) : Option ℕ := (List.range (den + 1)).find? (fun k => 10 ^ k % den = 0)

/-- Digits of `n` left-padded with zeros to width `k`. -/
def padDigits (n k : ℕ) : List ℕ :=
  List.replicate (k - (natDigitsN n).length) 0 ++ natDigitsN n

/-- Models JavaScript number-to-string for the non-negative decimal values
this codec emits (plain positional notation, exact for the `ℚ` idealisation
of binary64 values, which are always decimal rationals). -/
def ratToChars (q : ℚ) : S :=
  match decExp q.den with
  | none => str "NaN"
  | some k =>
    if k = 0 then natToChars q.num.toNat
    else
      let m := q.num.toNat * (10 ^ k / q.den)
      natToChars (m / 10 ^ k) ++ '.' :: (padDigits (m % 10 ^ k) k).map digitChar

/-! ## Record codec (`src/core/dns.ts`) -/

/-- The decoded DNS402 TXT record, `DNS402Record` of `src/core/types.ts`.
`price` is `none` when `parseFloat` produced `NaN`; `ttl` is `none` when the
`t` field was absent and `some none` when it was present but non-numeric. -/
structure DNS402Record where
  version : S
  price : Option ℚ
  currency : S
  network : S
  wallet : S
  ttl : Option (Option ℤ)
  model : S
  callback : Option S
  mint : Option S
deriving DecidableEq, Repr

/-- The key/value data object built by the first half of `parseRecord`:
split on `;`, trim, drop empty parts, then for each part take the text
before the first `=` as key and the text between the first and second `=`
as value, skipping pairs with an empty key or value. -/
def recordData (txt : S) : List (S × S) :=
  let parts := ((jsSplit ';' txt).map jsTrim).filter (fun p => decide (p ≠ []))
  parts.foldl
    (fun m part =>
      match jsSplit '=' part with
      | key :: value :: _ =>
        if key ≠ [] ∧ value ≠ [] then mapSet m (jsTrim key) (jsTrim value) else m
      | _ => m)
    []

/-- The required-field guard of `parseRecord`
(`data.v !== 'dns402' || !data.p || !data.c || !data.n || !data.w`, negated). -/
def requiredOk (data : List (S × S)) : Bool :=
  decide (mapGet data (str "v") = some (str "dns402")) &&
  jsTruthy (mapGet data (str "p")) && jsTruthy (mapGet data (str "c")) &&
  jsTruthy (mapGet data (str "n")) && jsTruthy (mapGet data (str "w"))

/-- `parseRecord` of `src/core/dns.ts`. -/
def parseRecord (txt : S) : Option DNS402Record :=
  let data := recordData txt
  if requiredOk data then
    some
      { version := (mapGet data (str "v")).getD []
        price := parseFloatQ ((mapGet data (str "p")).getD [])
        currency := ((mapGet data (str "c")).getD []).map Char.toUpper
        network := ((mapGet data (str "n")).getD []).map Char.toLower
        wallet := (mapGet data (str "w")).getD []
        ttl :=
          match mapGet data (str "t") with
          | some s => if s ≠ [] then some (parseIntZ s) else none
          | none => none
        model :=
          match mapGet data (str "m") with
          | some s => if s ≠ [] then s else str "per-request"
          | none => str "per-request"
        callback := mapGet data (str "cb")
        mint := mapGet data (str "mint") }
  else none

/-- The `generateRecord` configuration object (optional fields may be absent). -/
structure RecordConfig where
  price : ℚ
  currency : S
  wallet : S
  ttl : Option ℤ
  model : Option S
  callback : Option S
  mint : Option S
deriving DecidableEq, Repr

/-- `generateRecord` of `src/core/dns.ts`: the five required fields in fixed
order, then each optional field appended only when JavaScript-truthy. -/
def generateRecord (c : RecordConfig) : S :=
  let parts : List S :=
    [str "v=dns402", str "p=" ++ ratToChars c.price, str "c=" ++ c.currency,
     str "n=solana", str "w=" ++ c.wallet]
    ++ (match c.ttl with
        | some t => if t ≠ 0 then [str "t=" ++ intToChars t] else []
        | none => [])
    ++ (match c.model with
        | some m => if m ≠ [] then [str "m=" ++ m] else []
        | none => [])
    ++ (match c.callback with
        | some cb => if cb ≠ [] then [str "cb=" ++ cb] else []
        | none => [])
    ++ (match c.mint with
        | some mi => if mi ≠ [] then [str "mint=" ++ mi] else []
        | none => [])
  joinSep (str ";") parts

/-! ## On-chain payment verification (`src/core/solana.ts`) -/

/-- One entry of `meta.preTokenBalances` / `meta.postTokenBalances`.
`uiAmount` is `none` when the RPC reports `null`. -/
structure TokenBalance where
  accountIndex : ℕ
  owner : S
  uiAmount : Option ℚ
deriving DecidableEq, Repr

/-- The transaction metadata consulted by `verifyPayment`.  `err` is `true`
when the on-chain `meta.err` field is non-null. -/
structure TxMeta where
  err : Bool
  preBalances : List ℤ
  postBalances : List ℤ
  preTokenBalances : List TokenBalance
  postTokenBalances : List TokenBalance
deriving DecidableEq, Repr

/-- The transaction object returned by `connection.getTransaction`. -/
structure TxInfo where
  accountKeys : List S
  meta : Option TxMeta
deriving DecidableEq, Repr

/-- `LAMPORTS_PER_SOL`. -/
def lamportsPerSol : ℚ := 1000000000

/-- The SOL branch of `verifyPayment`: scan `accountKeys` for the expected
recipient and accept when its lamport balance delta covers 99% of the
expected amount (an out-of-range balance index compares as `NaN`, hence
fails, modelled by the explicit bounds checks). -/
def solTransferOk (meta : TxMeta) (keys : List S) (recipient : S) (amount : ℚ) : Bool :=
  (List.range keys.length).any fun i =>
    decide (keys.getD i [] = recipient) &&
    decide (i < meta.preBalances.length) && decide (i < meta.postBalances.length) &&
    decide (((meta.postBalances.getD i 0 - meta.preBalances.getD i 0 : ℤ) : ℚ) / lamportsPerSol
      ≥ amount * (99 / 100))

/-- `pre?.uiTokenAmount.uiAmount || 0` for the entry matching `accountIndex`. -/
def tokenPre (pres : List TokenBalance) (idx : ℕ) : ℚ :=
  match pres.find? (fun p => decide (p.accountIndex = idx)) with
  | some p => p.uiAmount.getD 0
  | none => 0

/-- The SPL-token branch of `verifyPayment`: scan `postTokenBalances` for an
entry owned by the expected recipient whose token delta covers 99% of the
expected amount. -/
def splTransferOk (meta : TxMeta) (recipient : S) (amount : ℚ) : Bool :=
  meta.postTokenBalances.any fun post =>
    decide (post.owner = recipient) &&
    decide (post.uiAmount.getD 0 - tokenPre meta.preTokenBalances post.accountIndex
      ≥ amount * (99 / 100))

/-- `verifyPayment` of `src/core/solana.ts`.  The ledger query is the
collaborator `getTx`; `.error` models a thrown RPC error, swallowed by the
try/catch into `false`. -/
def verifyPayment (getTx : S → Except Unit (Option TxInfo)) (signature recipient : S)
    (amount : ℚ) (currency : S) : Bool :=
  match getTx signature with
  | .error _ => false
  | .ok none => false
  | .ok (some tx) =>
    match tx.meta with
    | none => false
    | some meta =>
      if meta.err then false
      else if currency = str "SOL" then solTransferOk meta tx.accountKeys recipient amount
      else splTransferOk meta recipient amount

/-! ## Server gate (`src/server/middleware.ts`, `dns402`) -/

/-- A stored server session (`PaymentSession`). -/
structure PaymentSession where
  payer : S
  signature : S
  expiresAt : ℤ
deriving DecidableEq, Repr

/-- Server middleware configuration (`DNS402ServerConfig`), restricted to the
fields the gate consults.  `hasOnPayment` records whether an `onPayment`
callback is configured. -/
structure ServerConfig where
  wallet : S
  price : ℚ
  currency : S
  sessionTTL : Option ℤ
  hasOnPayment : Bool
deriving DecidableEq, Repr

/-- JavaScript `v || d` for an optional number (`undefined`, `NaN` and `0`
fall back to the default; here absent-or-zero suffices). -/
def jsOrInt (v : Option ℤ) (d : ℤ) : ℤ :=
  match v with
  | some t => if t ≠ 0 then t else d
  | none => d

/-- `(config.sessionTTL || 3600) * 1000`. -/
def serverTTLms (cfg : ServerConfig) : ℤ := jsOrInt cfg.sessionTTL 3600 * 1000

/-- The session read of the gate (lines 36-41): the stored entry for the
payer, provided it has not expired at `now` (strict comparison). -/
def serverGetLive (sessions : List (S × PaymentSession)) (payer : S) (now : ℤ) :
    Option PaymentSession :=
  match mapGet sessions payer with
  | some s => if s.expiresAt > now then some s else none
  | none => none

/-- The periodic cleanup body (lines 22-29): delete every session with
`expiresAt < now`. -/
def sweepSessions (sessions : List (S × PaymentSession)) (now : ℤ) :
    List (S × PaymentSession) :=
  sessions.filter fun e => decide (¬ e.2.expiresAt < now)

/-- Outcome of one gate invocation: `forward` models calling `next()`,
`challenge` the 402 response, `reject` the 403 response, and `threw` an
exception escaping the async handler (no response, request not forwarded). -/
inductive GateOutcome
  | forward
  | challenge
  | reject
  | threw
deriving DecidableEq, Repr

/-- Result of one gate invocation, with the collaborator-call record. -/
structure GateResult where
  outcome : GateOutcome
  verifyCalled : Bool
  onPaymentCalled : Bool
  sessions : List (S × PaymentSession)
deriving DecidableEq, Repr

/-- The request handler returned by `dns402` (middleware lines 31-85), as a
function of the two request headers (`[]` models an absent header, matching
JavaScript truthiness), the current time, the stored sessions, the
ledger-verify collaborator and the `onPayment` outcome (`onPaymentOk = false`
models a synchronous throw or rejected promise, which the un-guarded `await`
propagates). -/
def dns402Handler (cfg : ServerConfig) (sessions : List (S × PaymentSession)) (now : ℤ)
    (proofH payerH : S) (verify : S → S → ℚ → S → Bool) (onPaymentOk : Bool) : GateResult :=
  if payerH ≠ [] ∧ (serverGetLive sessions payerH now).isSome then
    ⟨.forward, false, false, sessions⟩
  else if proofH = [] ∨ payerH = [] then
    ⟨.challenge, false, false, sessions⟩
  else if verify proofH cfg.wallet cfg.price cfg.currency then
    let sessions2 := mapSet sessions payerH ⟨payerH, proofH, now + serverTTLms cfg⟩
    if cfg.hasOnPayment then
      if onPaymentOk then ⟨.forward, true, true, sessions2⟩
      else ⟨.threw, true, true, sessions2⟩
    else ⟨.forward, true, false, sessions2⟩
  else ⟨.reject, true, false, sessions⟩

/-! ## Client orchestrator (`src/client/client.ts`, `DNS402Client`) -/

/-- A payment proof (`PaymentProof`). -/
structure PaymentProofM where
  signature : S
  payer : S
  timestamp : ℤ
deriving DecidableEq, Repr

/-- A client session (`DNS402Session`). -/
structure ClientSession where
  domain : S
  proof : PaymentProofM
  expiresAt : ℤ
deriving DecidableEq, Repr

/-- Auto-pay policy configuration (`DNS402ClientConfig.autoPay`). -/
structure AutoPayCfg where
  enabled : Bool
  maxAmount : ℚ
  currency : S
deriving DecidableEq, Repr

/-- Client configuration, restricted to the fields the orchestrator consults. -/
structure ClientConfig where
  autoPay : Option AutoPayCfg
  sessionCache : Bool
deriving DecidableEq, Repr

/-- The collaborators of one client invocation: the HTTP server (status of
the n-th outgoing request), DNS discovery (decoded record of the n-th
`discover()` call) and the ledger send (result of the n-th payment). -/
structure ClientEnv where
  http : ℕ → ℕ
  dns : ℕ → Option DNS402Record
  send : ℕ → DNS402Record → Except Unit PaymentProofM

/-- Collaborator-call counters and the records actually paid, threaded
through one client invocation. -/
structure CState where
  httpCalls : ℕ
  dnsCalls : ℕ
  payments : ℕ
  sent : List DNS402Record
deriving DecidableEq, Repr

/-- The state at the start of an invocation. -/
def st0 : CState := ⟨0, 0, 0, []⟩

/-- An HTTP response, tagged with the index of the outgoing call that
produced it and the proof headers that were attached to that call. -/
structure HttpResponse where
  callIndex : ℕ
  status : ℕ
  withProof : Option PaymentProofM
deriving DecidableEq, Repr

/-- Issue one HTTP request (plain `fetch`, or `fetchWithProof` when proof
headers are attached). -/
def doHttp (env : ClientEnv) (st : CState) (pr : Option PaymentProofM) :
    HttpResponse × CState :=
  (⟨st.httpCalls, env.http st.httpCalls, pr⟩, { st with httpCalls := st.httpCalls + 1 })

/-- One `discover()` call. -/
def doDiscover (env : ClientEnv) (st : CState) : Option DNS402Record × CState :=
  (env.dns st.dnsCalls, { st with dnsCalls := st.dnsCalls + 1 })

/-- One `sendPayment` call (a payment attempt, whether or not it succeeds). -/
def doSend (env : ClientEnv) (st : CState) (r : DNS402Record) :
    Except Unit PaymentProofM × CState :=
  (env.send st.payments r,
   { st with payments := st.payments + 1, sent := st.sent ++ [r] })

/-- `(record.ttl || 3600)`: absent, `NaN` and `0` fall back to 3600. -/
def recordTTL (r : DNS402Record) : ℤ :=
  match r.ttl with
  | some (some t) => if t ≠ 0 then t else 3600
  | some none => 3600
  | none => 3600

/-- The error classes thrown by `fetch` / `pay`. -/
inductive FetchErr
  | noRecord
  | policyPrice
  | policyCurrency
  | paymentRequired
  | ledger
deriving DecidableEq, Repr

/-- JavaScript `record.price > maxAmount` where `price` may be `NaN`
(`none`): every comparison with `NaN` is false. -/
def jsPriceGT (p : Option ℚ) (m : ℚ) : Bool :=
  match p with
  | some q => decide (q > m)
  | none => false

namespace DNS402Client

/-- The cache-miss path of `pay` (client lines 205-226): discover, send the
payment, build the session, cache it when `config.sessionCache` is set. -/
def payMiss (cfg : ClientConfig) (env : ClientEnv) (cache : List (S × ClientSession))
    (now : ℤ) (domain : S) (st : CState) :
    Except FetchErr ClientSession × List (S × ClientSession) × CState :=
  match doDiscover env st with
  | (none, st) => (.error .noRecord, cache, st)
  | (some record, st) =>
    match doSend env st record with
    | (.error _, st) => (.error .ledger, cache, st)
    | (.ok proof, st) =>
      let sess : ClientSession := ⟨domain, proof, now + recordTTL record * 1000⟩
      (.ok sess, if cfg.sessionCache then mapSet cache domain sess else cache, st)

/-- `pay` (client lines 198-227): return the cached session when it is
still live, otherwise discover, pay and cache. -/
def pay (cfg : ClientConfig) (env : ClientEnv) (cache : List (S × ClientSession))
    (now : ℤ) (domain : S) (st : CState) :
    Except FetchErr ClientSession × List (S × ClientSession) × CState :=
  match mapGet cache domain with
  | some s =>
    if s.expiresAt > now then (.ok s, cache, st)
    else payMiss cfg env cache now domain st
  | none => payMiss cfg env cache now domain st

/-- The cache-miss path of `fetch` (client lines 242-277): plain request,
pass through non-402, discover, enforce the auto-pay policy on the record of
that first `discover()` call, then `pay` (which discovers again) and retry
exactly once with proof headers. -/
def fetchMiss (cfg : ClientConfig) (env : ClientEnv) (cache : List (S × ClientSession))
    (now : ℤ) (domain : S) :
    Except FetchErr HttpResponse × List (S × ClientSession) × CState :=
  match doHttp env st0 none with
  | (resp0, st) =>
    if resp0.status ≠ 402 then (.ok resp0, cache, st)
    else
      match doDiscover env st with
      | (none, st) => (.error .noRecord, cache, st)
      | (some record, st) =>
        match cfg.autoPay with
        | some ap =>
          if ap.enabled then
            if jsPriceGT record.price ap.maxAmount then (.error .policyPrice, cache, st)
            else if record.currency ≠ ap.currency then (.error .policyCurrency, cache, st)
            else
              match pay cfg env cache now domain st with
              | (.ok sess, cache2, st) =>
                match doHttp env st (some sess.proof) with
                | (resp, st) => (.ok resp, cache2, st)
              | (.error e, cache2, st) => (.error e, cache2, st)
          else (.error .paymentRequired, cache, st)
        | none => (.error .paymentRequired, cache, st)

/-- `fetch` (client lines 232-278): on a live cached session issue the
request once with proof headers and return its response as-is; otherwise run
the miss path. -/
def fetch (cfg : ClientConfig) (env : ClientEnv) (cache : List (S × ClientSession))
    (now : ℤ) (domain : S) :
    Except FetchErr HttpResponse × List (S × ClientSession) × CState :=
  match mapGet cache domain with
  | some s =>
    if s.expiresAt > now then
      match doHttp env st0 (some s.proof) with
      | (resp, st) => (.ok resp, cache, st)
    else fetchMiss cfg env cache now domain
  | none => fetchMiss cfg env cache now domain

/-- `getSession` (client lines 308-314): the cached session for the domain,
provided it has not expired. -/
def getSession (cache : List (S × ClientSession)) (domain : S) (now : ℤ) :
    Option ClientSession :=
  match mapGet cache domain with
  | some s => if s.expiresAt > now then some s else none
  | none => none

end DNS402Client

/-! ## Spec-side predicates and proof-support definitions -/

/-- Last-write-wins lookup in a list of key/value assignments (the semantics
of repeated JavaScript object assignment). -/
def lookupLast {α : Type} (ps : List (S × α)) (k : S) : Option α :=
  match ps with
  | [] => none
  | e :: rest =>
    match lookupLast rest k with
    | some v => some v
    | none => if e.1 = k then some e.2 else none

/-- A field value that survives the wire format unchanged: nonempty and free
of the two separators and of whitespace. -/
def goodField (s : S) : Prop :=
  s ≠ [] ∧ ∀ c ∈ s, c ≠ ';' ∧ c ≠ '=' ∧ isWS c = false

instance (s : S) : Decidable (goodField s) := by
  unfold goodField
  infer_instance

/-- Spec-side acceptance predicate for `verifyPayment`, following the claim
wording: the transaction is found with metadata, is not marked failed, and
the expected recipient appears among the balance-increasing accounts with a
received amount of at least 99% of the expected amount. -/
def claimAccepts (getTx : S → Except Unit (Option TxInfo)) (signature recipient : S)
    (amount : ℚ) (currency : S) : Prop :=
  ∃ tx meta, getTx signature = .ok (some tx) ∧ tx.meta = some meta ∧ meta.err = false ∧
    (if currency = str "SOL" then
      ∃ i, i < tx.accountKeys.length ∧ tx.accountKeys.getD i [] = recipient ∧
        i < meta.preBalances.length ∧ i < meta.postBalances.length ∧
        0 < ((meta.postBalances.getD i 0 - meta.preBalances.getD i 0 : ℤ) : ℚ) ∧
        ((meta.postBalances.getD i 0 - meta.preBalances.getD i 0 : ℤ) : ℚ) / lamportsPerSol
          ≥ amount * (99 / 100)
    else
      ∃ post ∈ meta.postTokenBalances, post.owner = recipient ∧
        0 < post.uiAmount.getD 0 - tokenPre meta.preTokenBalances post.accountIndex ∧
        post.uiAmount.getD 0 - tokenPre meta.preTokenBalances post.accountIndex
          ≥ amount * (99 / 100))

/-- The record a valid `RecordConfig` should decode back to: the five fixed
fields, version and network as emitted, the price wrapped in `some`, the
`ttl` as a parsed integer and the model defaulted to `per-request`. -/
def expectedDecode (c : RecordConfig) : DNS402Record :=
  { version := str "dns402"
    price := some c.price
    currency := c.currency
    network := str "solana"
    wallet := c.wallet
    ttl := c.ttl.map some
    model := c.model.getD (str "per-request")
    callback := c.callback
    mint := c.mint }

/-- Validity of an encoder configuration, the precise sense of "valid
PaymentTerms" under which the round-trip holds: a non-negative decimal
price, separator-free uppercase currency, separator-free wallet, a positive
`ttl` when present, and separator-free optional fields. -/
def validConfig (c : RecordConfig) : Prop :=
  0 ≤ c.price ∧ (decExp c.price.den).isSome ∧
  goodField c.currency ∧ c.currency.map Char.toUpper = c.currency ∧
  goodField c.wallet ∧
  (∀ t ∈ c.ttl, 0 < t) ∧
  (∀ m ∈ c.model, goodField m) ∧
  (∀ cb ∈ c.callback, goodField cb) ∧
  (∀ mi ∈ c.mint, goodField mi)

/-- The optional key/value pair contributed by one optional configuration
field of `generateRecord` (emitted only when present and truthy). -/
def optPairs {β : Type} (key : S) (o : Option β) (keep : β → Prop) [DecidablePred keep]
    (render : β → S) : List (S × S) :=
  match o with
  | some x => if keep x then [(key, render x)] else []
  | none => []

/-- The key/value pairs emitted by `generateRecord`, in emission order. -/
def recordPairs (c : RecordConfig) : List (S × S) :=
  [(str "v", str "dns402"), (str "p", ratToChars c.price), (str "c", c.currency),
   (str "n", str "solana"), (str "w", c.wallet)]
  ++ optPairs (str "t") c.ttl (fun t => t ≠ 0) intToChars
  ++ optPairs (str "m") c.model (fun m => m ≠ []) id
  ++ optPairs (str "cb") c.callback (fun x => x ≠ []) id
  ++ optPairs (str "mint") c.mint (fun x => x ≠ []) id

/-! ## Lemmas: decimal digits and the parseFloat / toString round-trip -/

lemma natDigitsRevAux_congr :
    ∀ fuel1 fuel2 n, n ≤ fuel1 → n ≤ fuel2 →
      natDigitsRevAux fuel1 n = natDigitsRevAux fuel2 n := by
  intro fuel1
  induction fuel1 with
  | zero =>
    intro fuel2 n h1 h2
    have hn : n = 0 := Nat.le_zero.mp h1
    subst hn
    cases fuel2 with
    | zero => rfl
    | succ f => simp [natDigitsRevAux]
  | succ f1 ih =>
    intro fuel2 n h1 h2
    cases fuel2 with
    | zero =>
      have hn : n = 0 := Nat.le_zero.mp h2
      subst hn
      simp [natDigitsRevAux]
    | succ f2 =>
      by_cases hn : n = 0
      · simp [natDigitsRevAux, hn]
      · have hstep : n / 10 < n := Nat.div_lt_self (Nat.pos_of_ne_zero hn) (by decide)
        rw [natDigitsRevAux, natDigitsRevAux, if_neg hn, if_neg hn,
          ih f2 (n / 10) (by omega) (by omega)]

lemma natDigitsRev_zero : natDigitsRev 0 = [] := rfl

lemma natDigitsRev_pos {n : ℕ} (h : n ≠ 0) :
    natDigitsRev n = n % 10 :: natDigitsRev (n / 10) := by
  obtain ⟨m, hm⟩ : ∃ m, n = m + 1 := ⟨n - 1, by omega⟩
  subst hm
  rw [natDigitsRev, natDigitsRevAux, if_neg h, natDigitsRev]
  have hstep : (m + 1) / 10 < m + 1 := Nat.div_lt_self (by omega) (by decide)
  rw [natDigitsRevAux_congr m ((m + 1) / 10) ((m + 1) / 10) (by omega) (by omega)]

lemma digitsVal_append_singleton (ds : List ℕ) (d : ℕ) :
    digitsVal (ds ++ [d]) = 10 * digitsVal ds + d := by
  simp [digitsVal, List.foldl_append]

lemma digitsVal_natDigitsRev (n : ℕ) : digitsVal (natDigitsRev n).reverse = n := by
  induction n using Nat.strong_induction_on with
  | _ n ih =>
    by_cases h : n = 0
    · subst h
      simp [natDigitsRev_zero, digitsVal]
    · rw [natDigitsRev_pos h, List.reverse_cons, digitsVal_append_singleton,
        ih (n / 10) (Nat.div_lt_self (Nat.pos_of_ne_zero h) (by decide))]
      omega

lemma digitsVal_natDigitsN (n : ℕ) : digitsVal (natDigitsN n) = n := by
  by_cases h : n = 0
  · subst h
    decide
  · rw [natDigitsN, if_neg h, digitsVal_natDigitsRev]

lemma natDigitsRev_lt_ten (n : ℕ) : ∀ d ∈ natDigitsRev n, d < 10 := by
  induction n using Nat.strong_induction_on with
  | _ n ih =>
    by_cases h : n = 0
    · subst h
      simp [natDigitsRev_zero]
    · rw [natDigitsRev_pos h]
      intro d hd
      rcases List.mem_cons.mp hd with h1 | h1
      · omega
      · exact ih (n / 10) (Nat.div_lt_self (Nat.pos_of_ne_zero h) (by decide)) d h1

lemma natDigitsN_lt_ten (n : ℕ) : ∀ d ∈ natDigitsN n, d < 10 := by
  intro d hd
  rw [natDigitsN] at hd
  by_cases h : n = 0
  · rw [if_pos h] at hd
    simp at hd
    omega
  · rw [if_neg h] at hd
    exact natDigitsRev_lt_ten n d (List.mem_reverse.mp hd)

lemma natDigitsN_ne_nil (n : ℕ) : natDigitsN n ≠ [] := by
  rw [natDigitsN]
  by_cases h : n = 0
  · simp [h]
  · rw [if_neg h]
    intro hcon
    have := digitsVal_natDigitsRev n
    rw [List.reverse_eq_nil_iff.mp hcon] at this
    exact h (by simpa [digitsVal] using this.symm)

lemma natDigitsRev_length_le {n k : ℕ} (h : n < 10 ^ k) : (natDigitsRev n).length ≤ k := by
  induction n using Nat.strong_induction_on generalizing k with
  | _ n ih =>
    by_cases h0 : n = 0
    · subst h0
      simp [natDigitsRev_zero]
    · rw [natDigitsRev_pos h0]
      cases k with
      | zero => omega
      | succ k =>
        have hdiv : n / 10 < 10 ^ k := by
          rw [Nat.div_lt_iff_lt_mul (by decide : 0 < 10)]
          calc n < 10 ^ (k + 1) := h
            _ = 10 ^ k * 10 := by ring
        simpa using ih (n / 10) (Nat.div_lt_self (Nat.pos_of_ne_zero h0) (by decide)) hdiv

lemma natDigitsN_length_le {n k : ℕ} (h : n < 10 ^ k) (hk : k ≠ 0) :
    (natDigitsN n).length ≤ k := by
  rw [natDigitsN]
  by_cases h0 : n = 0
  · simp [h0]
    omega
  · rw [if_neg h0]
    simpa using natDigitsRev_length_le h

lemma digitVal?_digitChar {d : ℕ} (h : d < 10) : digitVal? (digitChar d) = some d := by
  interval_cases d <;> decide

lemma digitChar_ne {d : ℕ} (h : d < 10) :
    digitChar d ≠ '-' ∧ digitChar d ≠ '+' ∧ digitChar d ≠ '.' ∧ digitChar d ≠ ';' ∧
    digitChar d ≠ '=' ∧ isWS (digitChar d) = false ∧ digitChar d ≠ 'e' ∧
    digitChar d ≠ 'E' := by
  interval_cases d <;> decide

lemma takeDigits_exact (ds : List ℕ) (rest : S) (hd : ∀ d ∈ ds, d < 10)
    (hrest : ∀ c, rest.head? = some c → digitVal? c = none) :
    takeDigits (ds.map digitChar ++ rest) = (ds, rest) := by
  induction ds with
  | nil =>
    cases rest with
    | nil => rfl
    | cons c t => simp [takeDigits, hrest c rfl]
  | cons d ds ih =>
    have h10 : d < 10 := hd d (by simp)
    simp [takeDigits, digitVal?_digitChar h10,
      ih (fun x hx => hd x (by simp [hx]))]

lemma digitsVal_replicate_zero_append (j : ℕ) (ds : List ℕ) :
    digitsVal (List.replicate j 0 ++ ds) = digitsVal ds := by
  induction j with
  | zero => simp
  | succ j ih =>
    rw [List.replicate_succ]
    simpa [digitsVal, List.foldl_cons] using ih

lemma digitsVal_padDigits (n k : ℕ) : digitsVal (padDigits n k) = n := by
  rw [padDigits, digitsVal_replicate_zero_append, digitsVal_natDigitsN]

lemma padDigits_lt_ten (n k : ℕ) : ∀ d ∈ padDigits n k, d < 10 := by
  intro d hd
  rw [padDigits] at hd
  rcases List.mem_append.mp hd with h1 | h1
  · have := List.eq_of_mem_replicate h1
    omega
  · exact natDigitsN_lt_ten n d h1

lemma padDigits_length {n k : ℕ} (h : n < 10 ^ k) (hk : k ≠ 0) :
    (padDigits n k).length = k := by
  have hle := natDigitsN_length_le h hk
  simp [padDigits]
  omega

lemma parseNeg_digit_head (d : ℕ) (h : d < 10) (rest : S) :
    parseNeg (digitChar d :: rest) = (false, digitChar d :: rest) := by
  simp [parseNeg, (digitChar_ne h).1, (digitChar_ne h).2.1]

lemma parseFloatQ_natToChars (n : ℕ) : parseFloatQ (natToChars n) = some (n : ℚ) := by
  obtain ⟨d, ds, hds⟩ := List.exists_cons_of_ne_nil (natDigitsN_ne_nil n)
  have hall : ∀ x ∈ d :: ds, x < 10 := by
    rw [← hds]
    exact natDigitsN_lt_ten n
  have htake : takeDigits (digitChar d :: List.map digitChar ds) = (d :: ds, []) := by
    have h := takeDigits_exact (d :: ds) [] hall (by intro c hc; simp at hc)
    simpa using h
  have hval : digitsVal (d :: ds) = n := by
    rw [← hds, digitsVal_natDigitsN]
  simp only [natToChars, hds, List.map_cons, parseFloatQ,
    parseNeg_digit_head d (hall d (by simp))]
  simp only [parseMantissa, htake]
  simp [parseExp, hval]

lemma cast_toNat_num (q : ℚ) (h0 : 0 ≤ q) : ((q.num.toNat : ℕ) : ℚ) = (q.num : ℚ) := by
  exact_mod_cast congrArg (Int.cast : ℤ → ℚ) (Int.toNat_of_nonneg (Rat.num_nonneg.mpr h0))

lemma decimal_m_eq (q : ℚ) (h0 : 0 ≤ q) {k : ℕ} (hdvd : q.den ∣ 10 ^ k) :
    ((q.num.toNat * (10 ^ k / q.den) : ℕ) : ℚ) = q * 10 ^ k := by
  have hden0 : ((q.den : ℚ)) ≠ 0 := by
    exact_mod_cast q.den_nz
  have h1 : ((10 ^ k / q.den : ℕ) : ℚ) = (10 : ℚ) ^ k / (q.den : ℚ) := by
    rw [Nat.cast_div hdvd hden0]
    push_cast
    ring
  have hnum : (q.num : ℚ) = q * (q.den : ℚ) := (div_eq_iff hden0).mp (Rat.num_div_den q)
  rw [Nat.cast_mul, h1, cast_toNat_num q h0, hnum]
  field_simp
  rw [hnum]
  ring

lemma decimal_value_eq (q : ℚ) (h0 : 0 ≤ q) {k : ℕ} (hdvd : q.den ∣ 10 ^ k) :
    ((q.num.toNat * (10 ^ k / q.den) / 10 ^ k : ℕ) : ℚ)
      + ((q.num.toNat * (10 ^ k / q.den) % 10 ^ k : ℕ) : ℚ) / (10 : ℚ) ^ k = q := by
  have h10 : ((10 : ℚ)) ^ k ≠ 0 := by positivity
  set m : ℕ := q.num.toNat * (10 ^ k / q.den) with hm
  have key : ((m / 10 ^ k : ℕ) : ℚ) * (10 : ℚ) ^ k + ((m % 10 ^ k : ℕ) : ℚ) = (m : ℚ) := by
    have hnat : m / 10 ^ k * 10 ^ k + m % 10 ^ k = m := by
      rw [mul_comm]
      exact Nat.div_add_mod m (10 ^ k)
    exact_mod_cast hnat
  have hmq : (m : ℚ) = q * 10 ^ k := decimal_m_eq q h0 hdvd
  have hq : q = (m : ℚ) / (10 : ℚ) ^ k := by
    rw [hmq]
    field_simp
  rw [hq, eq_div_iff h10, add_mul, div_mul_cancel₀ _ h10, key]

lemma decExp_spec {den k : ℕ} (hk : decExp den = some k) : den ∣ 10 ^ k := by
  have h := List.find?_some hk
  exact Nat.dvd_of_mod_eq_zero (by simpa using h)

lemma parseFloatQ_ratToChars (q : ℚ) (h0 : 0 ≤ q) (h1 : (decExp q.den).isSome) :
    parseFloatQ (ratToChars q) = some q := by
  obtain ⟨k, hk⟩ := Option.isSome_iff_exists.mp h1
  have hdvd : q.den ∣ 10 ^ k := decExp_spec hk
  by_cases hk0 : k = 0
  · subst hk0
    have hden1 : q.den = 1 := Nat.dvd_one.mp (by simpa using hdvd)
    simp only [ratToChars, hk]
    rw [if_true, parseFloatQ_natToChars]
    have : ((q.num.toNat : ℕ) : ℚ) = q := by
      rw [cast_toNat_num q h0]
      conv_rhs => rw [← Rat.num_div_den q]
      rw [hden1]
      simp
    rw [this]
  · simp only [ratToChars, hk]
    rw [if_neg hk0]
    set m : ℕ := q.num.toNat * (10 ^ k / q.den) with hm
    set r : ℕ := m % 10 ^ k with hr
    set a : ℕ := m / 10 ^ k with ha
    have h10k : (0 : ℕ) < 10 ^ k := Nat.pos_pow_of_pos k (by decide)
    have hrk : r < 10 ^ k := Nat.mod_lt _ h10k
    obtain ⟨d, ds, hds⟩ := List.exists_cons_of_ne_nil (natDigitsN_ne_nil a)
    have hallA : ∀ x ∈ d :: ds, x < 10 := by
      rw [← hds]
      exact natDigitsN_lt_ten a
    have htake1 : takeDigits (digitChar d :: (List.map digitChar ds
        ++ '.' :: (padDigits r k).map digitChar))
        = (d :: ds, '.' :: (padDigits r k).map digitChar) := by
      have h := takeDigits_exact (d :: ds) ('.' :: (padDigits r k).map digitChar) hallA
        (by
          intro c hc
          simp at hc
          rw [← hc]
          decide)
      simpa using h
    have htake2 : takeDigits ((padDigits r k).map digitChar) = (padDigits r k, []) := by
      have h := takeDigits_exact (padDigits r k) [] (padDigits_lt_ten r k)
        (by intro c hc; simp at hc)
      simpa using h
    have hlen : (padDigits r k).length = k := padDigits_length hrk hk0
    have hvalA : digitsVal (d :: ds) = a := by
      rw [← hds, digitsVal_natDigitsN]
    have hvalR : digitsVal (padDigits r k) = r := digitsVal_padDigits r k
    rw [natToChars, hds]
    simp only [List.map_cons, List.cons_append, parseFloatQ,
      parseNeg_digit_head d (hallA d (by simp))]
    simp only [parseMantissa, htake1, htake2]
    have hnil : (d :: ds = [] ∧ padDigits r k = []) = False := by
      simp
    simp only [hnil, if_false, parseExp, hvalA, hvalR, hlen]
    rw [hm] at ha hr
    rw [ha, hr]
    simp [decimal_value_eq q h0 hdvd]

lemma parseIntZ_natToChars (n : ℕ) : parseIntZ (natToChars n) = some (n : ℤ) := by
  obtain ⟨d, ds, hds⟩ := List.exists_cons_of_ne_nil (natDigitsN_ne_nil n)
  have hall : ∀ x ∈ d :: ds, x < 10 := by
    rw [← hds]
    exact natDigitsN_lt_ten n
  have htake : takeDigits (digitChar d :: List.map digitChar ds) = (d :: ds, []) := by
    have h := takeDigits_exact (d :: ds) [] hall (by intro c hc; simp at hc)
    simpa using h
  have hval : digitsVal (d :: ds) = n := by
    rw [← hds, digitsVal_natDigitsN]
  simp only [natToChars, hds, List.map_cons, parseIntZ,
    parseNeg_digit_head d (hall d (by simp)), htake]
  simp [hval]

/-! ## Lemmas: split, trim, join -/

lemma jsSplit_ne_nil (sep : Char) (cs : S) : jsSplit sep cs ≠ [] := by
  cases cs with
  | nil => simp [jsSplit]
  | cons c cs =>
    rw [jsSplit]
    cases jsSplit sep cs with
    | nil => simp
    | cons h t =>
      by_cases hc : c = sep <;> simp [hc]

lemma jsSplit_no_sep {sep : Char} {cs : S} (h : sep ∉ cs) : jsSplit sep cs = [cs] := by
  induction cs with
  | nil => rfl
  | cons c cs ih =>
    have hc : c ≠ sep := fun hc => h (hc ▸ List.mem_cons_self c cs)
    rw [jsSplit, ih (fun hmem => h (List.mem_cons_of_mem c hmem))]
    simp [hc]

lemma jsSplit_append {sep : Char} {xs : S} (ys : S) (h : sep ∉ xs) :
    jsSplit sep (xs ++ sep :: ys) = xs :: jsSplit sep ys := by
  induction xs with
  | nil =>
    rw [List.nil_append, jsSplit]
    cases hy : jsSplit sep ys with
    | nil => exact absurd hy (jsSplit_ne_nil sep ys)
    | cons h t => simp
  | cons x xs ih =>
    have hx : x ≠ sep := fun hc => h (hc ▸ List.mem_cons_self x xs)
    rw [List.cons_append, jsSplit, ih (fun hmem => h (List.mem_cons_of_mem x hmem))]
    simp [hx]

lemma jsSplit_joinSep {sep : Char} (parts : List S) (hne : parts ≠ [])
    (h : ∀ p ∈ parts, sep ∉ p) :
    jsSplit sep (joinSep [sep] parts) = parts := by
  induction parts with
  | nil => exact absurd rfl hne
  | cons p ps ih =>
    cases ps with
    | nil =>
      rw [joinSep]
      exact jsSplit_no_sep (h p (by simp))
    | cons q qs =>
      rw [joinSep]
      rw [show p ++ [sep] ++ joinSep [sep] (q :: qs) = p ++ sep :: joinSep [sep] (q :: qs)
        by simp]
      rw [jsSplit_append _ (h p (by simp))]
      rw [ih (by simp) (fun x hx => h x (List.mem_cons_of_mem p hx))]

lemma dropWhile_id {p : Char → Bool} {cs : S} (h : ∀ c ∈ cs, p c = false) :
    cs.dropWhile p = cs := by
  cases cs with
  | nil => rfl
  | cons c t => simp [List.dropWhile, h c (by simp)]

lemma jsTrim_id {cs : S} (h : ∀ c ∈ cs, isWS c = false) : jsTrim cs = cs := by
  rw [jsTrim, dropWhile_id h, dropWhile_id (fun c hc => h c (List.mem_reverse.mp hc)),
    List.reverse_reverse]

/-! ## Lemmas: object / Map models -/

lemma find?_key_filter {α : Type} (m : List (S × α)) (a k : S) (h : a ≠ k) :
    (m.filter (fun e => decide (e.1 ≠ a))).find? (fun e => decide (e.1 = k))
      = m.find? (fun e => decide (e.1 = k)) := by
  induction m with
  | nil => rfl
  | cons e m ih =>
    rw [List.filter_cons]
    by_cases h2 : e.1 = a
    · rw [if_neg (by simp [h2]), ih,
        List.find?_cons_of_neg _ (by simp [h2]; exact h)]
    · rw [if_pos (by simp [h2])]
      by_cases h1 : e.1 = k
      · rw [List.find?_cons_of_pos _ (by simp [h1]), List.find?_cons_of_pos _ (by simp [h1])]
      · rw [List.find?_cons_of_neg _ (by simp [h1]), List.find?_cons_of_neg _ (by simp [h1]),
          ih]

lemma mapGet_mapSet {α : Type} (m : List (S × α)) (a k : S) (v : α) :
    mapGet (mapSet m a v) k = if a = k then some v else mapGet m k := by
  by_cases h : a = k
  · subst h
    simp [mapGet, mapSet, List.find?]
  · simp only [mapGet, mapSet, List.find?, if_neg h]
    rw [show (decide (a = k)) = false by simp [h]]
    simp only [Bool.false_eq_true, if_false]
    rw [find?_key_filter m a k h]

lemma mapGet_foldl_mapSet {α : Type} (ps : List (S × α)) (m : List (S × α)) (k : S) :
    mapGet (ps.foldl (fun acc e => mapSet acc e.1 e.2) m) k
      = match lookupLast ps k with
        | some v => some v
        | none => mapGet m k := by
  induction ps generalizing m with
  | nil => rfl
  | cons e ps ih =>
    rw [List.foldl_cons, ih, lookupLast]
    cases lookupLast ps k with
    | some v => rfl
    | none =>
      rw [mapGet_mapSet]
      by_cases h : e.1 = k <;> simp [h]

/-! ## Lemmas: recordData on generated text -/

lemma part_step (m : List (S × S)) (k v : S) (hk : goodField k) (hv : goodField v) :
    (match jsSplit '=' (k ++ '=' :: v) with
      | key :: value :: _ =>
        if key ≠ [] ∧ value ≠ [] then mapSet m (jsTrim key) (jsTrim value) else m
      | _ => m) = mapSet m k v := by
  have hkne : '=' ∉ k := fun hmem => ((hk.2 '=' hmem).2.1) rfl
  have hvne : '=' ∉ v := fun hmem => ((hv.2 '=' hmem).2.1) rfl
  rw [jsSplit_append v hkne, jsSplit_no_sep hvne]
  show (if k ≠ [] ∧ v ≠ [] then mapSet m (jsTrim k) (jsTrim v) else m) = mapSet m k v
  rw [jsTrim_id (fun c hc => (hk.2 c hc).2.2), jsTrim_id (fun c hc => (hv.2 c hc).2.2)]
  simp [hk.1, hv.1]

lemma goodPart_no_semi {k v : S} (hk : goodField k) (hv : goodField v) :
    ';' ∉ k ++ '=' :: v := by
  intro hmem
  rcases List.mem_append.mp hmem with h1 | h1
  · exact (hk.2 ';' h1).1 rfl
  · rcases List.mem_cons.mp h1 with h2 | h2
    · exact absurd h2.symm (by decide)
    · exact (hv.2 ';' h2).1 rfl

lemma goodPart_no_ws {k v : S} (hk : goodField k) (hv : goodField v) :
    ∀ c ∈ k ++ '=' :: v, isWS c = false := by
  intro c hmem
  rcases List.mem_append.mp hmem with h1 | h1
  · exact (hk.2 c h1).2.2
  · rcases List.mem_cons.mp h1 with h2 | h2
    · rw [h2]
      decide
    · exact (hv.2 c h2).2.2

lemma recordData_joinSep (pairs : List (S × S)) (hne : pairs ≠ [])
    (hgood : ∀ kv ∈ pairs, goodField kv.1 ∧ goodField kv.2) :
    recordData (joinSep (str ";") (pairs.map (fun kv => kv.1 ++ '=' :: kv.2)))
      = pairs.foldl (fun m kv => mapSet m kv.1 kv.2) [] := by
  have hsemi : str ";" = [';'] := rfl
  rw [recordData, hsemi]
  rw [jsSplit_joinSep _ (by simpa using hne)
    (by
      intro p hp
      obtain ⟨kv, hkv, hkveq⟩ := List.mem_map.mp hp
      rw [← hkveq]
      exact goodPart_no_semi (hgood kv hkv).1 (hgood kv hkv).2)]
  rw [show (pairs.map (fun kv => kv.1 ++ '=' :: kv.2)).map jsTrim
      = pairs.map (fun kv => kv.1 ++ '=' :: kv.2) by
    rw [List.map_map]
    apply List.map_congr_left
    intro kv hkv
    exact jsTrim_id (goodPart_no_ws (hgood kv hkv).1 (hgood kv hkv).2)]
  rw [show (pairs.map (fun kv => kv.1 ++ '=' :: kv.2)).filter (fun p => decide (p ≠ []))
      = pairs.map (fun kv => kv.1 ++ '=' :: kv.2) by
    apply List.filter_eq_self.mpr
    intro p hp
    obtain ⟨kv, hkv, hkveq⟩ := List.mem_map.mp hp
    rw [← hkveq]
    simp]
  rw [List.foldl_map]
  apply List.foldl_ext
  intro m kv hkv
  exact part_step m kv.1 kv.2 (hgood kv hkv).1 (hgood kv hkv).2

/-! ## Lemmas: lookupLast and recordPairs -/

lemma lookupLast_append {α : Type} (xs ys : List (S × α)) (k : S) :
    lookupLast (xs ++ ys) k
      = match lookupLast ys k with
        | some v => some v
        | none => lookupLast xs k := by
  induction xs with
  | nil =>
    rw [List.nil_append]
    cases lookupLast ys k <;> rfl
  | cons e xs ih =>
    rw [List.cons_append, lookupLast, ih, lookupLast]
    cases lookupLast ys k <;> cases lookupLast xs k <;> rfl

lemma lookupLast_none_of_keys {α : Type} {l : List (S × α)} {k : S}
    (h : ∀ e ∈ l, e.1 ≠ k) : lookupLast l k = none := by
  induction l with
  | nil => rfl
  | cons e l ih =>
    rw [lookupLast, ih (fun x hx => h x (List.mem_cons_of_mem e hx))]
    simp [h e (List.mem_cons_self e l)]

lemma optPairs_keys {β : Type} (key : S) (o : Option β) (keep : β → Prop)
    [DecidablePred keep] (render : β → S) :
    ∀ e ∈ optPairs key o keep render, e.1 = key := by
  rcases o with _ | x
  · simp [optPairs]
  · by_cases h : keep x <;> simp [optPairs, h]

lemma lookupLast_optPairs_ne {β : Type} {k key : S} (h : key ≠ k) (o : Option β)
    (keep : β → Prop) [DecidablePred keep] (render : β → S) :
    lookupLast (optPairs key o keep render) k = none :=
  lookupLast_none_of_keys (fun e he => (optPairs_keys key o keep render e he) ▸ h)

lemma lookupLast_optPairs_self {β : Type} (key : S) (o : Option β) (keep : β → Prop)
    [DecidablePred keep] (render : β → S) :
    lookupLast (optPairs key o keep render) key
      = match o with
        | some x => if keep x then some (render x) else none
        | none => none := by
  rcases o with _ | x
  · rfl
  · by_cases h : keep x <;> simp [optPairs, lookupLast, h]

lemma mem_optPairs {β : Type} {key : S} {o : Option β} {keep : β → Prop}
    [DecidablePred keep] {render : β → S} {e : S × S}
    (he : e ∈ optPairs key o keep render) :
    ∃ x, o = some x ∧ keep x ∧ e = (key, render x) := by
  rcases o with _ | x
  · simp [optPairs] at he
  · by_cases h : keep x
    · simp [optPairs, h] at he
      exact ⟨x, rfl, h, by rw [he]⟩
    · simp [optPairs, h] at he

lemma map_pair_optPairs {β : Type} (key : S) (o : Option β) (keep : β → Prop)
    [DecidablePred keep] (render : β → S) :
    List.map (fun kv : S × S => kv.1 ++ '=' :: kv.2) (optPairs key o keep render)
      = match o with
        | some x => if keep x then [key ++ '=' :: render x] else []
        | none => [] := by
  rcases o with _ | x
  · rfl
  · by_cases h : keep x <;> simp [optPairs, h]

lemma part_eq_t (y : S) : str "t" ++ '=' :: y = str "t=" ++ y := rfl

lemma part_eq_m (y : S) : str "m" ++ '=' :: y = str "m=" ++ y := rfl

lemma part_eq_cb (y : S) : str "cb" ++ '=' :: y = str "cb=" ++ y := rfl

lemma part_eq_mint (y : S) : str "mint" ++ '=' :: y = str "mint=" ++ y := rfl

lemma generateRecord_eq_pairs (c : RecordConfig) :
    generateRecord c
      = joinSep (str ";") ((recordPairs c).map (fun kv => kv.1 ++ '=' :: kv.2)) := by
  rw [generateRecord, recordPairs]
  congr 1
  rw [List.map_append, List.map_append, List.map_append, List.map_append,
    map_pair_optPairs, map_pair_optPairs, map_pair_optPairs, map_pair_optPairs]
  simp only [List.map_cons, List.map_nil, id_eq, part_eq_t, part_eq_m, part_eq_cb,
    part_eq_mint]
  rcases c.ttl with _ | t <;> rcases c.model with _ | m <;>
    rcases c.callback with _ | cb <;> rcases c.mint with _ | mi <;> rfl

/-! ## Lemmas: rendered numbers are separator-free field values -/

lemma digitChar_goodChar {d : ℕ} (h : d < 10) :
    digitChar d ≠ ';' ∧ digitChar d ≠ '=' ∧ isWS (digitChar d) = false :=
  ⟨(digitChar_ne h).2.2.2.1, (digitChar_ne h).2.2.2.2.1, (digitChar_ne h).2.2.2.2.2.1⟩

lemma natToChars_good (n : ℕ) : goodField (natToChars n) := by
  constructor
  · rw [natToChars]
    simpa using natDigitsN_ne_nil n
  · intro c hc
    obtain ⟨d, hd, hdc⟩ := List.mem_map.mp hc
    rw [← hdc]
    exact digitChar_goodChar (natDigitsN_lt_ten n d hd)

lemma ratToChars_good (q : ℚ) (h1 : (decExp q.den).isSome) : goodField (ratToChars q) := by
  obtain ⟨k, hk⟩ := Option.isSome_iff_exists.mp h1
  by_cases hk0 : k = 0
  · subst hk0
    simp only [ratToChars, hk, if_true]
    exact natToChars_good _
  · simp only [ratToChars, hk]
    rw [if_neg hk0]
    constructor
    · simp only [ne_eq, List.append_eq_nil]
      intro hcon
      exact absurd hcon.1 ((natToChars_good _).1)
    · intro c hc
      rcases List.mem_append.mp hc with h2 | h2
      · exact (natToChars_good _).2 c h2
      · rcases List.mem_cons.mp h2 with h3 | h3
        · rw [h3]
          decide
        · obtain ⟨d, hd, hdc⟩ := List.mem_map.mp h3
          rw [← hdc]
          exact digitChar_goodChar (padDigits_lt_ten _ _ d hd)

lemma intToChars_pos {t : ℤ} (ht : 0 < t) : intToChars t = natToChars t.toNat := by
  rw [intToChars, if_neg (by omega)]

lemma intToChars_good {t : ℤ} (ht : 0 < t) : goodField (intToChars t) := by
  rw [intToChars_pos ht]
  exact natToChars_good _

lemma parseIntZ_intToChars {t : ℤ} (ht : 0 < t) : parseIntZ (intToChars t) = some t := by
  rw [intToChars_pos ht, parseIntZ_natToChars]
  congr 1
  omega

lemma lookupLast_base_v (c : RecordConfig) :
    lookupLast (recordPairs c) (str "v") = some (str "dns402") := by
  rw [recordPairs, lookupLast_append, lookupLast_optPairs_ne (by decide),
    lookupLast_append, lookupLast_optPairs_ne (by decide),
    lookupLast_append, lookupLast_optPairs_ne (by decide),
    lookupLast_append, lookupLast_optPairs_ne (by decide)]
  simp +decide [lookupLast]

lemma lookupLast_base_p (c : RecordConfig) :
    lookupLast (recordPairs c) (str "p") = some (ratToChars c.price) := by
  rw [recordPairs, lookupLast_append, lookupLast_optPairs_ne (by decide),
    lookupLast_append, lookupLast_optPairs_ne (by decide),
    lookupLast_append, lookupLast_optPairs_ne (by decide),
    lookupLast_append, lookupLast_optPairs_ne (by decide)]
  simp +decide [lookupLast]

lemma lookupLast_base_c (c : RecordConfig) :
    lookupLast (recordPairs c) (str "c") = some c.currency := by
  rw [recordPairs, lookupLast_append, lookupLast_optPairs_ne (by decide),
    lookupLast_append, lookupLast_optPairs_ne (by decide),
    lookupLast_append, lookupLast_optPairs_ne (by decide),
    lookupLast_append, lookupLast_optPairs_ne (by decide)]
  simp +decide [lookupLast]

lemma lookupLast_base_n (c : RecordConfig) :
    lookupLast (recordPairs c) (str "n") = some (str "solana") := by
  rw [recordPairs, lookupLast_append, lookupLast_optPairs_ne (by decide),
    lookupLast_append, lookupLast_optPairs_ne (by decide),
    lookupLast_append, lookupLast_optPairs_ne (by decide),
    lookupLast_append, lookupLast_optPairs_ne (by decide)]
  simp +decide [lookupLast]

lemma lookupLast_base_w (c : RecordConfig) :
    lookupLast (recordPairs c) (str "w") = some c.wallet := by
  rw [recordPairs, lookupLast_append, lookupLast_optPairs_ne (by decide),
    lookupLast_append, lookupLast_optPairs_ne (by decide),
    lookupLast_append, lookupLast_optPairs_ne (by decide),
    lookupLast_append, lookupLast_optPairs_ne (by decide)]
  simp +decide [lookupLast]

lemma lookupLast_opt_t (c : RecordConfig) :
    lookupLast (recordPairs c) (str "t")
      = match c.ttl with
        | some t => if t ≠ 0 then some (intToChars t) else none
        | none => none := by
  rw [recordPairs, lookupLast_append, lookupLast_optPairs_ne (by decide),
    lookupLast_append, lookupLast_optPairs_ne (by decide),
    lookupLast_append, lookupLast_optPairs_ne (by decide),
    lookupLast_append, lookupLast_optPairs_self]
  rcases c.ttl with _ | t
  · simp +decide [lookupLast]
  · by_cases ht : t ≠ 0
    · simp [ht]
    · simp +decide [lookupLast, ht]

lemma lookupLast_opt_m (c : RecordConfig) :
    lookupLast (recordPairs c) (str "m")
      = match c.model with
        | some m => if m ≠ [] then some m else none
        | none => none := by
  rw [recordPairs, lookupLast_append, lookupLast_optPairs_ne (by decide),
    lookupLast_append, lookupLast_optPairs_ne (by decide),
    lookupLast_append, lookupLast_optPairs_self,
    lookupLast_append, lookupLast_optPairs_ne (by decide)]
  rcases c.model with _ | m
  · simp +decide [lookupLast]
  · by_cases hm : m ≠ []
    · simp [hm]
    · simp +decide [lookupLast, hm]

lemma lookupLast_opt_cb (c : RecordConfig) :
    lookupLast (recordPairs c) (str "cb")
      = match c.callback with
        | some cb => if cb ≠ [] then some cb else none
        | none => none := by
  rw [recordPairs, lookupLast_append, lookupLast_optPairs_ne (by decide),
    lookupLast_append, lookupLast_optPairs_self,
    lookupLast_append, lookupLast_optPairs_ne (by decide),
    lookupLast_append, lookupLast_optPairs_ne (by decide)]
  rcases c.callback with _ | cb
  · simp +decide [lookupLast]
  · by_cases hcb : cb ≠ []
    · simp [hcb]
    · simp +decide [lookupLast, hcb]

lemma lookupLast_opt_mint (c : RecordConfig) :
    lookupLast (recordPairs c) (str "mint")
      = match c.mint with
        | some mi => if mi ≠ [] then some mi else none
        | none => none := by
  rw [recordPairs, lookupLast_append, lookupLast_optPairs_self,
    lookupLast_append, lookupLast_optPairs_ne (by decide),
    lookupLast_append, lookupLast_optPairs_ne (by decide),
    lookupLast_append, lookupLast_optPairs_ne (by decide)]
  rcases c.mint with _ | mi
  · simp +decide [lookupLast]
  · by_cases hmi : mi ≠ []
    · simp [hmi]
    · simp +decide [lookupLast, hmi]

/-- C8 (amended): for every valid `RecordConfig` whose string fields are
free of the `;` and `=` separators and of whitespace, whose currency is
already upper-case and whose `ttl` is positive when present,
`parseRecord (generateRecord c)` succeeds and returns exactly the expected
record: same price, currency, network, wallet, ttl and mint, the callback
as emitted, and the model defaulted to `per-request` when absent.  (The
unamended claim, quantified over all valid PaymentTerms including callback
URIs containing `=`, is refuted by `roundtrip_drops_eq_in_callback`.) -/
theorem roundtrip_amended (c : RecordConfig) (hv : validConfig c) :
    parseRecord (generateRecord c) = some (expectedDecode c) := by
  obtain ⟨hp0, hpd, hcur, hcurU, hwal, httl, hmod, hcb, hmint⟩ := hv
  have hgoodAll : ∀ kv ∈ recordPairs c, goodField kv.1 ∧ goodField kv.2 := by
    intro kv hkv
    rw [recordPairs] at hkv
    rcases List.mem_append.mp hkv with hkv | hkv
    rotate_left
    · obtain ⟨mi, hmeq, hmne, hkveq⟩ := mem_optPairs hkv
      rw [hkveq]
      exact ⟨by show goodField (str "mint"); decide, hmint mi (Option.mem_def.mpr hmeq)⟩
    rcases List.mem_append.mp hkv with hkv | hkv
    rotate_left
    · obtain ⟨cb, hcbeq, hcbne, hkveq⟩ := mem_optPairs hkv
      rw [hkveq]
      exact ⟨by show goodField (str "cb"); decide, hcb cb (Option.mem_def.mpr hcbeq)⟩
    rcases List.mem_append.mp hkv with hkv | hkv
    rotate_left
    · obtain ⟨m, hmeq, hmne, hkveq⟩ := mem_optPairs hkv
      rw [hkveq]
      exact ⟨by show goodField (str "m"); decide, hmod m (Option.mem_def.mpr hmeq)⟩
    rcases List.mem_append.mp hkv with hkv | hkv
    rotate_left
    · obtain ⟨t, hteq, htne, hkveq⟩ := mem_optPairs hkv
      rw [hkveq]
      exact ⟨by show goodField (str "t"); decide, intToChars_good (httl t (Option.mem_def.mpr hteq))⟩
    · simp only [List.mem_cons, List.not_mem_nil, or_false] at hkv
      rcases hkv with h | h | h | h | h
      · rw [h]
        exact ⟨by show goodField (str "v"); decide, by show goodField (str "dns402"); decide⟩
      · rw [h]
        exact ⟨by show goodField (str "p"); decide, ratToChars_good c.price hpd⟩
      · rw [h]
        exact ⟨by show goodField (str "c"); decide, hcur⟩
      · rw [h]
        exact ⟨by show goodField (str "n"); decide, by show goodField (str "solana"); decide⟩
      · rw [h]
        exact ⟨by show goodField (str "w"); decide, hwal⟩
  have hpne : recordPairs c ≠ [] := by
    rw [recordPairs]
    simp
  have hdata : recordData (generateRecord c)
      = (recordPairs c).foldl (fun m kv => mapSet m kv.1 kv.2) [] := by
    rw [generateRecord_eq_pairs c]
    exact recordData_joinSep _ hpne hgoodAll
  have hget : ∀ k, mapGet (recordData (generateRecord c)) k = lookupLast (recordPairs c) k := by
    intro k
    rw [hdata, mapGet_foldl_mapSet]
    cases lookupLast (recordPairs c) k <;> rfl
  have hreq : requiredOk (recordData (generateRecord c)) = true := by
    simp only [requiredOk, hget, lookupLast_base_v, lookupLast_base_p, lookupLast_base_c,
      lookupLast_base_n, lookupLast_base_w, jsTruthy]
    simp [(ratToChars_good c.price hpd).1, hcur.1, hwal.1,
      (by decide : (str "solana" : S) ≠ [])]
  simp only [parseRecord, hget, hreq, if_true]
  rw [lookupLast_base_v, lookupLast_base_p, lookupLast_base_c, lookupLast_base_n,
    lookupLast_base_w, lookupLast_opt_t, lookupLast_opt_m, lookupLast_opt_cb,
    lookupLast_opt_mint]
  rw [expectedDecode]
  simp only [Option.some.injEq, DNS402Record.mk.injEq, Option.getD_some]
  refine ⟨trivial, parseFloatQ_ratToChars c.price hp0 hpd, hcurU, by decide, trivial,
    ?_, ?_, ?_, ?_⟩
  · rcases hc : c.ttl with _ | t
    · simp
    · have ht := httl t (Option.mem_def.mpr hc)
      have ht0 : t ≠ 0 := by omega
      simp [ht0, (intToChars_good ht).1, parseIntZ_intToChars ht]
  · rcases hc : c.model with _ | m
    · simp
    · simp [(hmod m (Option.mem_def.mpr hc)).1]
  · rcases hc : c.callback with _ | cb
    · simp
    · simp [(hcb cb (Option.mem_def.mpr hc)).1]
  · rcases hc : c.mint with _ | mi
    · simp
    · simp [(hmint mi (Option.mem_def.mpr hc)).1]

/-- C8 (counterexample): the round-trip claim fails as stated on a valid
configuration whose callback URI contains `=`: the decoder keeps only the
text between the first and second `=` of the `cb` pair, so the query part
of the callback is silently dropped and the decoded record is not
value-equal to the input. -/
theorem roundtrip_drops_eq_in_callback :
    (parseRecord (generateRecord
        ⟨1, str "USDC", str "W1", none, none, some (str "https://cb.example/h?id=1"),
          none⟩)).map DNS402Record.callback
      = some (some (str "https://cb.example/h?id"))
    ∧ (some (str "https://cb.example/h?id") : Option S)
      ≠ some (str "https://cb.example/h?id=1") := by
  constructor
  · decide
  · decide

/-- C8 (witness): the amended round-trip theorem applied to the concrete
configuration `price 1, currency USDC, wallet W1, ttl 1800, model session`. -/
theorem roundtrip_amended_witness :
    validConfig ⟨1, str "USDC", str "W1", some 1800, some (str "session"), none, none⟩
    ∧ parseRecord (generateRecord
        ⟨1, str "USDC", str "W1", some 1800, some (str "session"), none, none⟩)
      = some (expectedDecode
        ⟨1, str "USDC", str "W1", some 1800, some (str "session"), none, none⟩) := by
  have hv : validConfig ⟨1, str "USDC", str "W1", some 1800, some (str "session"),
      none, none⟩ := by
    refine ⟨by norm_num, by decide, by decide, by decide, by decide, ?_, ?_, ?_, ?_⟩
    · intro t ht
      simp at ht
      omega
    · intro m hm
      simp at hm
      rw [← hm]
      decide
    · intro cb hcb
      simp at hcb
    · intro mi hmi
      simp at hmi
  exact ⟨hv, roundtrip_amended _ hv⟩

/-! ## Claim C3: decode failure conditions -/

lemma jsTruthy_iff (o : Option S) : jsTruthy o = true ↔ ∃ v, o = some v ∧ v ≠ [] := by
  cases o with
  | none => simp [jsTruthy]
  | some s => simp [jsTruthy]

/-- C3 (counterexample): a record text whose price is not numeric is NOT
rejected: `parseRecord` returns a record whose price is `NaN` (modelled
`none`), contradicting the claim that a non-numeric price yields null. -/
theorem parseRecord_nonNumeric_price_not_null :
    parseRecord (str "v=dns402;p=abc;c=USDC;n=solana;w=X")
      = some
          { version := str "dns402", price := none, currency := str "USDC",
            network := str "solana", wallet := str "X", ttl := none,
            model := str "per-request", callback := none, mint := none } := by
  decide

lemma requiredOk_iff (d : List (S × S)) :
    requiredOk d = true ↔
      (mapGet d (str "v") = some (str "dns402")
        ∧ (∃ v, mapGet d (str "p") = some v ∧ v ≠ [])
        ∧ (∃ v, mapGet d (str "c") = some v ∧ v ≠ [])
        ∧ (∃ v, mapGet d (str "n") = some v ∧ v ≠ [])
        ∧ (∃ v, mapGet d (str "w") = some v ∧ v ≠ [])) := by
  rw [requiredOk]
  simp [Bool.and_eq_true, decide_eq_true_eq, jsTruthy_iff, and_assoc]

lemma parseFloatQ_minus5 : parseFloatQ (str "-5") = some (-5 : ℚ) := by
  show parseFloatQ ['-', '5'] = some (-5 : ℚ)
  rw [show parseFloatQ ['-', '5']
      = some ((if true then (-1 : ℚ) else 1) * (digitsVal [5] : ℚ) * (10 : ℚ) ^ (0 : ℤ))
    from rfl]
  norm_num [digitsVal]

/-- C3 (amended): `parseRecord` is a total function (it never throws) and
returns `none` exactly when one of the five required fields is missing or
empty in the parsed key/value data, or the version value is not the literal
`dns402`.  The price is not validated: a negative price is returned as-is
(and a non-numeric price yields a record with a `NaN` price, see the
counterexample). -/
theorem parseRecord_none_iff :
    (∀ txt, parseRecord txt = none ↔
      ¬ (mapGet (recordData txt) (str "v") = some (str "dns402")
        ∧ (∃ v, mapGet (recordData txt) (str "p") = some v ∧ v ≠ [])
        ∧ (∃ v, mapGet (recordData txt) (str "c") = some v ∧ v ≠ [])
        ∧ (∃ v, mapGet (recordData txt) (str "n") = some v ∧ v ≠ [])
        ∧ (∃ v, mapGet (recordData txt) (str "w") = some v ∧ v ≠ [])))
    ∧ (parseRecord (str "v=dns402;p=-5;c=USDC;n=solana;w=X")).map DNS402Record.price
        = some (some (-5 : ℚ)) := by
  constructor
  · intro txt
    rw [parseRecord]
    by_cases h : requiredOk (recordData txt) = true
    · simp only [h, if_true]
      constructor
      · intro hcon
        exact absurd hcon (by simp)
      · intro hcon
        exact absurd ((requiredOk_iff _).mp h) hcon
    · have hb : requiredOk (recordData txt) = false := by
        cases hx : requiredOk (recordData txt)
        · rfl
        · exact absurd hx h
      simp only [hb, Bool.false_eq_true, if_false]
      simp only [eq_self_iff_true, true_iff]
      exact fun hc => h ((requiredOk_iff _).mpr hc)
  · rw [show (parseRecord (str "v=dns402;p=-5;c=USDC;n=solana;w=X")).map DNS402Record.price
        = some (parseFloatQ (str "-5")) from rfl]
    rw [parseFloatQ_minus5]

/-! ## Claim C10: pair splitting keeps only the first value segment -/

lemma part_step_extra (m : List (S × S)) (k v w : S) (hk : goodField k)
    (hv : goodField v) :
    (match jsSplit '=' (k ++ '=' :: (v ++ '=' :: w)) with
      | key :: value :: _ =>
        if key ≠ [] ∧ value ≠ [] then mapSet m (jsTrim key) (jsTrim value) else m
      | _ => m) = mapSet m k v := by
  have hkne : '=' ∉ k := fun hmem => ((hk.2 '=' hmem).2.1) rfl
  have hvne : '=' ∉ v := fun hmem => ((hv.2 '=' hmem).2.1) rfl
  rw [jsSplit_append _ hkne, jsSplit_append _ hvne]
  show (if k ≠ [] ∧ v ≠ [] then mapSet m (jsTrim k) (jsTrim v) else m) = mapSet m k v
  rw [jsTrim_id (fun c hc => (hk.2 c hc).2.2), jsTrim_id (fun c hc => (hv.2 c hc).2.2)]
  simp [hk.1, hv.1]

/-- C10: in every `key=value` pair the decoder keeps only the text between
the first and the second `=` (anything after a second `=`, as in a callback
URL with a query string, is silently dropped), and pairs with an empty key
or empty value are ignored rather than failing the whole decode. -/
theorem pair_value_truncation (v w : S) (hv : goodField v)
    (hw : ∀ c ∈ w, c ≠ ';' ∧ isWS c = false) :
    parseRecord (str "v=dns402;p=1;c=USDC;n=solana;w=W1;cb=" ++ v ++ '=' :: w)
      = some
          { version := str "dns402", price := parseFloatQ (str "1"),
            currency := str "USDC", network := str "solana", wallet := str "W1",
            ttl := none, model := str "per-request", callback := some v, mint := none }
    ∧ parseFloatQ (str "1") = some 1
    ∧ parseRecord (str "v=dns402;p=1;c=USDC;n=solana;w=W1;=x;k=")
      = parseRecord (str "v=dns402;p=1;c=USDC;n=solana;w=W1") := by
  refine ⟨?_, ?_, ?_⟩
  · show parseRecord (str "v=dns402" ++ ';' :: (str "p=1" ++ ';' :: (str "c=USDC"
      ++ ';' :: (str "n=solana" ++ ';' :: (str "w=W1" ++ ';' :: (str "cb"
      ++ '=' :: (v ++ '=' :: w))))))) = _
    have hnos : (';' : Char) ∉ str "cb" ++ '=' :: (v ++ '=' :: w) := by
      intro hmem
      rcases List.mem_append.mp hmem with h1 | h1
      · revert h1
        decide
      · rcases List.mem_cons.mp h1 with h2 | h2
        · exact absurd h2 (by decide)
        · rcases List.mem_append.mp h2 with h3 | h3
          · exact (hv.2 ';' h3).1 rfl
          · rcases List.mem_cons.mp h3 with h4 | h4
            · exact absurd h4 (by decide)
            · exact (hw ';' h4).1 rfl
    have hws : ∀ c ∈ str "cb" ++ '=' :: (v ++ '=' :: w), isWS c = false := by
      intro c hmem
      rcases List.mem_append.mp hmem with h1 | h1
      · simp only [show (str "cb" : S) = ['c', 'b'] from rfl, List.mem_cons,
          List.not_mem_nil, or_false] at h1
        rcases h1 with h1 | h1 <;> rw [h1] <;> decide
      · rcases List.mem_cons.mp h1 with h2 | h2
        · rw [h2]
          decide
        · rcases List.mem_append.mp h2 with h3 | h3
          · exact (hv.2 c h3).2.2
          · rcases List.mem_cons.mp h3 with h4 | h4
            · rw [h4]
              decide
            · exact (hw c h4).2
    have hdata : recordData (str "v=dns402" ++ ';' :: (str "p=1" ++ ';' :: (str "c=USDC"
        ++ ';' :: (str "n=solana" ++ ';' :: (str "w=W1" ++ ';' :: (str "cb"
        ++ '=' :: (v ++ '=' :: w)))))))
        = (str "cb", v) :: [(str "w", str "W1"), (str "n", str "solana"),
            (str "c", str "USDC"), (str "p", str "1"), (str "v", str "dns402")] := by
      rw [recordData]
      rw [jsSplit_append _ (by decide), jsSplit_append _ (by decide),
        jsSplit_append _ (by decide), jsSplit_append _ (by decide),
        jsSplit_append _ (by decide), jsSplit_no_sep hnos]
      simp only [List.map_cons, List.map_nil]
      rw [show jsTrim (str "v=dns402") = str "v=dns402" from by decide,
        show jsTrim (str "p=1") = str "p=1" from by decide,
        show jsTrim (str "c=USDC") = str "c=USDC" from by decide,
        show jsTrim (str "n=solana") = str "n=solana" from by decide,
        show jsTrim (str "w=W1") = str "w=W1" from by decide,
        jsTrim_id hws]
      simp only [List.filter_cons, List.filter_nil]
      rw [show (decide ((str "v=dns402" : S) ≠ [])) = true from by decide,
        show (decide ((str "p=1" : S) ≠ [])) = true from by decide,
        show (decide ((str "c=USDC" : S) ≠ [])) = true from by decide,
        show (decide ((str "n=solana" : S) ≠ [])) = true from by decide,
        show (decide ((str "w=W1" : S) ≠ [])) = true from by decide,
        show (decide ((str "cb" ++ '=' :: (v ++ '=' :: w) : S) ≠ [])) = true from by simp]
      simp only [if_true, List.foldl_cons, List.foldl_nil]
      rw [part_step_extra _ _ _ _ (by show goodField (str "cb"); decide) hv]
      rw [mapSet]
      congr 1
    simp only [parseRecord, hdata]
    rw [show requiredOk ((str "cb", v) :: [(str "w", str "W1"), (str "n", str "solana"),
        (str "c", str "USDC"), (str "p", str "1"), (str "v", str "dns402")]) = true
      from by
        rw [requiredOk]
        simp only [mapGet, List.find?]
        simp +decide [jsTruthy]]
    simp only [if_true, mapGet, List.find?]
    simp +decide
  · rw [show (str "1" : S) = natToChars 1 from by decide, parseFloatQ_natToChars]
    norm_num
  · rfl

/-- C10 (witness): the truncation theorem applied to the concrete pair value
`abc` followed by the dropped suffix `d=e`. -/
theorem pair_value_truncation_witness :
    goodField (str "abc")
    ∧ (∀ c ∈ str "d=e", c ≠ ';' ∧ isWS c = false)
    ∧ (parseRecord (str "v=dns402;p=1;c=USDC;n=solana;w=W1;cb="
          ++ str "abc" ++ '=' :: str "d=e")
        = some
            { version := str "dns402", price := parseFloatQ (str "1"),
              currency := str "USDC", network := str "solana", wallet := str "W1",
              ttl := none, model := str "per-request", callback := some (str "abc"),
              mint := none }
      ∧ parseFloatQ (str "1") = some 1
      ∧ parseRecord (str "v=dns402;p=1;c=USDC;n=solana;w=W1;=x;k=")
          = parseRecord (str "v=dns402;p=1;c=USDC;n=solana;w=W1")) :=
  ⟨by decide, by decide, pair_value_truncation (str "abc") (str "d=e") (by decide) (by decide)⟩

/-! ## Claim C2: verifyPayment -/

lemma lamportsPerSol_pos : (0 : ℚ) < lamportsPerSol := by
  norm_num [lamportsPerSol]

lemma solTransferOk_iff (meta : TxMeta) (keys : List S) (r : S) (a : ℚ) (ha : 0 < a) :
    solTransferOk meta keys r a = true ↔
      ∃ i, i < keys.length ∧ keys.getD i [] = r ∧
        i < meta.preBalances.length ∧ i < meta.postBalances.length ∧
        0 < ((meta.postBalances.getD i 0 - meta.preBalances.getD i 0 : ℤ) : ℚ) ∧
        ((meta.postBalances.getD i 0 - meta.preBalances.getD i 0 : ℤ) : ℚ) / lamportsPerSol
          ≥ a * (99 / 100) := by
  rw [solTransferOk, List.any_eq_true]
  constructor
  · rintro ⟨i, hi, hcond⟩
    simp only [Bool.and_eq_true, decide_eq_true_eq] at hcond
    obtain ⟨⟨⟨h1, h2⟩, h3⟩, h4⟩ := hcond
    have hpos : (0 : ℚ) < a * (99 / 100) := by positivity
    have hdivpos : (0 : ℚ)
        < ((meta.postBalances.getD i 0 - meta.preBalances.getD i 0 : ℤ) : ℚ)
          / lamportsPerSol := lt_of_lt_of_le hpos h4
    have hdelta : (0 : ℚ)
        < ((meta.postBalances.getD i 0 - meta.preBalances.getD i 0 : ℤ) : ℚ) := by
      rcases div_pos_iff.mp hdivpos with ⟨hnum, _⟩ | ⟨_, hden⟩
      · exact hnum
      · exact absurd lamportsPerSol_pos (by linarith)
    exact ⟨i, List.mem_range.mp hi, h1, h2, h3, hdelta, h4⟩
  · rintro ⟨i, hi, h1, h2, h3, hdelta, h4⟩
    refine ⟨i, List.mem_range.mpr hi, ?_⟩
    simp only [Bool.and_eq_true, decide_eq_true_eq]
    exact ⟨⟨⟨h1, h2⟩, h3⟩, h4⟩

lemma splTransferOk_iff (meta : TxMeta) (r : S) (a : ℚ) (ha : 0 < a) :
    splTransferOk meta r a = true ↔
      ∃ post ∈ meta.postTokenBalances, post.owner = r ∧
        0 < post.uiAmount.getD 0 - tokenPre meta.preTokenBalances post.accountIndex ∧
        post.uiAmount.getD 0 - tokenPre meta.preTokenBalances post.accountIndex
          ≥ a * (99 / 100) := by
  rw [splTransferOk, List.any_eq_true]
  constructor
  · rintro ⟨post, hmem, hcond⟩
    simp only [Bool.and_eq_true, decide_eq_true_eq] at hcond
    obtain ⟨h1, h2⟩ := hcond
    have hpos : (0 : ℚ) < a * (99 / 100) := by positivity
    exact ⟨post, hmem, h1, lt_of_lt_of_le hpos h2, h2⟩
  · rintro ⟨post, hmem, h1, hpos, h2⟩
    refine ⟨post, hmem, ?_⟩
    simp only [Bool.and_eq_true, decide_eq_true_eq]
    exact ⟨h1, h2⟩

/-- C2 (amended): restricted to a positive expected amount, `verifyPayment`
returns `true` exactly under the claimed conditions: the transaction is
found with metadata, is not marked failed, and the expected recipient is
among the balance-increasing accounts with a received amount of at least
99% of the expected amount (`claimAccepts`); and a thrown ledger query
(`.error`) always yields `false` — `verifyPayment` never throws.  The
unamended claim, which also covers `expectedAmount = 0`, is refuted by
`verifyPayment_zero_amount_counterexample`. -/
theorem verifyPayment_iff_claim :
    ∀ (getTx : S → Except Unit (Option TxInfo)) (sig r : S) (a : ℚ) (cur : S),
      (0 < a → (verifyPayment getTx sig r a cur = true ↔ claimAccepts getTx sig r a cur))
      ∧ (∀ e, getTx sig = .error e → verifyPayment getTx sig r a cur = false) := by
  intro getTx sig r a cur
  constructor
  · intro ha
    cases h : getTx sig with
    | error e =>
      simp only [verifyPayment, h]
      constructor
      · intro hcon
        simp at hcon
      · rintro ⟨tx, meta, htx, _⟩
        rw [h] at htx
        exact absurd htx (by simp)
    | ok o =>
      cases o with
      | none =>
        simp only [verifyPayment, h]
        constructor
        · intro hcon
          simp at hcon
        · rintro ⟨tx, meta, htx, _⟩
          rw [h] at htx
          exact absurd htx (by simp)
      | some tx =>
        cases hm : tx.meta with
        | none =>
          simp only [verifyPayment, h, hm]
          constructor
          · intro hcon
            simp at hcon
          · rintro ⟨tx2, meta2, htx2, hmeta2, _⟩
            rw [h] at htx2
            obtain rfl : tx = tx2 := by
              injection htx2 with h1
              injection h1
            rw [hm] at hmeta2
            exact absurd hmeta2 (by simp)
        | some meta =>
          cases herr : meta.err with
          | true =>
            simp only [verifyPayment, h, hm, herr, if_true]
            constructor
            · intro hcon
              simp at hcon
            · rintro ⟨tx2, meta2, htx2, hmeta2, herr2, _⟩
              rw [h] at htx2
              obtain rfl : tx = tx2 := by
                injection htx2 with h1
                injection h1
              rw [hm] at hmeta2
              obtain rfl : meta = meta2 := by
                injection hmeta2
              rw [herr] at herr2
              exact absurd herr2 (by simp)
          | false =>
            simp only [verifyPayment, h, hm, herr, Bool.false_eq_true, if_false]
            constructor
            · intro hok
              refine ⟨tx, meta, h, hm, herr, ?_⟩
              by_cases hcur : cur = str "SOL"
              · rw [if_pos hcur]
                rw [if_pos hcur] at hok
                exact (solTransferOk_iff meta tx.accountKeys r a ha).mp hok
              · rw [if_neg hcur]
                rw [if_neg hcur] at hok
                exact (splTransferOk_iff meta r a ha).mp hok
            · rintro ⟨tx2, meta2, htx2, hmeta2, herr2, hrest⟩
              rw [h] at htx2
              obtain rfl : tx = tx2 := by
                injection htx2 with h1
                injection h1
              rw [hm] at hmeta2
              obtain rfl : meta = meta2 := by
                injection hmeta2
              by_cases hcur : cur = str "SOL"
              · rw [if_pos hcur]
                rw [if_pos hcur] at hrest
                exact (solTransferOk_iff meta tx.accountKeys r a ha).mpr hrest
              · rw [if_neg hcur]
                rw [if_neg hcur] at hrest
                exact (splTransferOk_iff meta r a ha).mpr hrest
  · intro e he
    rw [verifyPayment, he]

/-- C2 (counterexample): with `expectedAmount = 0`, a transaction in which
the recipient appears but with a zero balance delta — so the recipient is
not among the balance-increasing accounts — is nevertheless accepted by
`verifyPayment` (zero received is at least 99% of zero), refuting the
claimed rejection condition as stated. -/
theorem verifyPayment_zero_amount_counterexample :
    verifyPayment (fun _ => Except.ok (some ⟨[str "R"], some ⟨false, [5], [5], [], []⟩⟩))
        (str "s") (str "R") 0 (str "SOL") = true
    ∧ ¬ claimAccepts (fun _ => Except.ok (some ⟨[str "R"], some ⟨false, [5], [5], [], []⟩⟩))
        (str "s") (str "R") 0 (str "SOL") := by
  constructor
  · show solTransferOk ⟨false, [5], [5], [], []⟩ [str "R"] (str "R") 0 = true
    rw [solTransferOk]
    rw [show List.range [str "R"].length = [0] from rfl]
    simp only [List.any_cons, List.any_nil, Bool.or_false, Bool.and_eq_true,
      decide_eq_true_eq]
    refine ⟨⟨⟨rfl, by norm_num⟩, by norm_num⟩, ?_⟩
    simp [List.getD]
  · rintro ⟨tx, meta, htx, hmeta, herr, hrest⟩
    have htx2 : (Except.ok (some (⟨[str "R"], some ⟨false, [5], [5], [], []⟩⟩ : TxInfo))
        : Except Unit (Option TxInfo)) = Except.ok (some tx) := htx
    obtain rfl : (⟨[str "R"], some ⟨false, [5], [5], [], []⟩⟩ : TxInfo) = tx := by
      injection htx2 with h1
      injection h1
    obtain rfl : (⟨false, [5], [5], [], []⟩ : TxMeta) = meta := by
      injection hmeta
    rw [if_pos rfl] at hrest
    obtain ⟨i, hi, _, _, _, hdelta, _⟩ := hrest
    simp only [List.length_singleton] at hi
    interval_cases i
    simp [List.getD] at hdelta

/-- C2 (witness): the amended equivalence at a concrete transaction paying
1 SOL (10^9 lamports) to the expected recipient. -/
theorem verifyPayment_iff_claim_witness :
    (0 : ℚ) < 1
    ∧ (verifyPayment
          (fun _ => Except.ok (some ⟨[str "R"], some ⟨false, [0], [1000000000], [], []⟩⟩))
          (str "s") (str "R") 1 (str "SOL") = true
        ↔ claimAccepts
          (fun _ => Except.ok (some ⟨[str "R"], some ⟨false, [0], [1000000000], [], []⟩⟩))
          (str "s") (str "R") 1 (str "SOL")) :=
  ⟨by norm_num,
   (verifyPayment_iff_claim
      (fun _ => Except.ok (some ⟨[str "R"], some ⟨false, [0], [1000000000], [], []⟩⟩))
      (str "s") (str "R") 1 (str "SOL")).1 (by norm_num)⟩

/-! ## Claims C1 and C7: the server gate -/

lemma dns402Handler_eq (cfg : ServerConfig) (sessions : List (S × PaymentSession))
    (now : ℤ) (proofH payerH : S) (verify : S → S → ℚ → S → Bool) (opk : Bool)
    (hnosess : ¬ (payerH ≠ [] ∧ (serverGetLive sessions payerH now).isSome))
    (hp : proofH ≠ []) (hpayer : payerH ≠ []) :
    dns402Handler cfg sessions now proofH payerH verify opk
      = if verify proofH cfg.wallet cfg.price cfg.currency then
          (if cfg.hasOnPayment then
            (if opk then
              ⟨.forward, true, true,
                mapSet sessions payerH ⟨payerH, proofH, now + serverTTLms cfg⟩⟩
             else
              ⟨.threw, true, true,
                mapSet sessions payerH ⟨payerH, proofH, now + serverTTLms cfg⟩⟩)
           else
            ⟨.forward, true, false,
              mapSet sessions payerH ⟨payerH, proofH, now + serverTTLms cfg⟩⟩)
        else ⟨.reject, true, false, sessions⟩ := by
  rw [dns402Handler, if_neg hnosess, if_neg (not_or.mpr ⟨hp, hpayer⟩)]

/-- C1 (counterexample): a request carrying a proof header but no payer
header is answered with the 402 challenge and the ledger-verify collaborator
is never called, refuting the claim that a present proof always triggers
verification (and a 403 on failure). -/
theorem gate_proof_without_payer_counterexample :
    dns402Handler ⟨str "W1", 1, str "USDC", none, false⟩ [] 0 (str "sig") []
        (fun _ _ _ _ => true) true
      = ⟨.challenge, false, false, []⟩
    ∧ GateOutcome.challenge ≠ GateOutcome.forward := by
  constructor
  · rfl
  · decide

/-- C1 (amended): with no live session, the gate responds 402 without
calling the verifier whenever the proof header OR the payer header is
absent; when both are present the verifier is called, and a verification
failure yields the 403 rejection — never a 402. -/
theorem gate_challenge_and_verify_amended :
    ∀ (cfg : ServerConfig) (sessions : List (S × PaymentSession)) (now : ℤ)
      (proofH payerH : S) (verify : S → S → ℚ → S → Bool) (opk : Bool),
      ¬ (payerH ≠ [] ∧ (serverGetLive sessions payerH now).isSome) →
      ((proofH = [] ∨ payerH = [] →
        dns402Handler cfg sessions now proofH payerH verify opk
          = ⟨.challenge, false, false, sessions⟩)
      ∧ (proofH ≠ [] → payerH ≠ [] →
          (dns402Handler cfg sessions now proofH payerH verify opk).verifyCalled = true
          ∧ (verify proofH cfg.wallet cfg.price cfg.currency = false →
              dns402Handler cfg sessions now proofH payerH verify opk
                = ⟨.reject, true, false, sessions⟩))) := by
  intro cfg sessions now proofH payerH verify opk hnosess
  constructor
  · intro hmiss
    rw [dns402Handler, if_neg hnosess, if_pos hmiss]
  · intro hp hpayer
    constructor
    · rw [dns402Handler_eq cfg sessions now proofH payerH verify opk hnosess hp hpayer]
      by_cases hv : verify proofH cfg.wallet cfg.price cfg.currency = true
      · rw [if_pos hv]
        by_cases hop : cfg.hasOnPayment = true
        · rw [if_pos hop]
          by_cases hok : opk = true
          · rw [if_pos hok]
          · rw [if_neg hok]
        · rw [if_neg hop]
      · rw [if_neg hv]
    · intro hvf
      rw [dns402Handler_eq cfg sessions now proofH payerH verify opk hnosess hp hpayer,
        if_neg (by simp [hvf])]

/-- C1 (witness): the amended theorem at a concrete request with both
headers present and a failing verifier, yielding the 403 rejection. -/
theorem gate_challenge_and_verify_amended_witness :
    ¬ ((str "P" : S) ≠ [] ∧ (serverGetLive [] (str "P") 0).isSome)
    ∧ (((str "sig" : S) = [] ∨ (str "P" : S) = [] →
        dns402Handler ⟨str "W1", 1, str "USDC", none, false⟩ [] 0 (str "sig") (str "P")
            (fun _ _ _ _ => false) true
          = ⟨.challenge, false, false, []⟩)
      ∧ ((str "sig" : S) ≠ [] → (str "P" : S) ≠ [] →
          (dns402Handler ⟨str "W1", 1, str "USDC", none, false⟩ [] 0 (str "sig") (str "P")
              (fun _ _ _ _ => false) true).verifyCalled = true
          ∧ ((fun (_ : S) (_ : S) (_ : ℚ) (_ : S) => false) (str "sig") (str "W1") 1
                (str "USDC") = false →
              dns402Handler ⟨str "W1", 1, str "USDC", none, false⟩ [] 0 (str "sig") (str "P")
                  (fun _ _ _ _ => false) true
                = ⟨.reject, true, false, []⟩))) :=
  ⟨by decide,
   gate_challenge_and_verify_amended ⟨str "W1", 1, str "USDC", none, false⟩ [] 0
     (str "sig") (str "P") (fun _ _ _ _ => false) true (by decide)⟩

/-- C7 (counterexample): after a successful verification, a configured
`onPayment` callback that throws (or returns a rejected promise) makes the
un-guarded `await` propagate the error: the middleware throws, `next()` is
never called, and the request is NOT forwarded — refuting the claim that an
`onPayment` failure cannot prevent forwarding. -/
theorem onPayment_failure_blocks_forwarding :
    dns402Handler ⟨str "W1", 1, str "USDC", none, true⟩ [] 0 (str "sig") (str "P")
        (fun _ _ _ _ => true) false
      = ⟨.threw, true, true, [(str "P", ⟨str "P", str "sig", 3600000⟩)]⟩
    ∧ GateOutcome.threw ≠ GateOutcome.forward := by
  constructor
  · rfl
  · decide

/-- C7 (amended): for a request whose proof passes verification (no live
session, both headers present), the `onPayment` callback is invoked exactly
when it is configured, and the session is stored; if the callback is absent
or completes, the request is forwarded, but if it is configured and fails,
the awaited error propagates and the request is not forwarded (the handler
throws instead). -/
theorem onPayment_await_amended :
    ∀ (cfg : ServerConfig) (sessions : List (S × PaymentSession)) (now : ℤ)
      (proofH payerH : S) (verify : S → S → ℚ → S → Bool) (opk : Bool),
      ¬ (payerH ≠ [] ∧ (serverGetLive sessions payerH now).isSome) →
      proofH ≠ [] → payerH ≠ [] →
      verify proofH cfg.wallet cfg.price cfg.currency = true →
      ((dns402Handler cfg sessions now proofH payerH verify opk).onPaymentCalled
          = cfg.hasOnPayment
        ∧ (dns402Handler cfg sessions now proofH payerH verify opk).sessions
          = mapSet sessions payerH ⟨payerH, proofH, now + serverTTLms cfg⟩
        ∧ (cfg.hasOnPayment = false ∨ opk = true →
            (dns402Handler cfg sessions now proofH payerH verify opk).outcome = .forward)
        ∧ (cfg.hasOnPayment = true → opk = false →
            (dns402Handler cfg sessions now proofH payerH verify opk).outcome = .threw)) := by
  intro cfg sessions now proofH payerH verify opk hnosess hp hpayer hv
  rw [dns402Handler_eq cfg sessions now proofH payerH verify opk hnosess hp hpayer,
    if_pos hv]
  by_cases hop : cfg.hasOnPayment = true
  · rw [if_pos hop]
    by_cases hok : opk = true
    · rw [if_pos hok]
      exact ⟨hop.symm, rfl, fun _ => rfl, fun _ hcon => absurd hok (by simp [hcon])⟩
    · rw [if_neg hok]
      refine ⟨hop.symm, rfl, ?_, fun _ _ => rfl⟩
      intro hcase
      rcases hcase with hcase | hcase
      · exact absurd hop (by simp [hcase])
      · exact absurd hcase hok
  · rw [if_neg hop]
    have hopf : cfg.hasOnPayment = false := by
      cases hx : cfg.hasOnPayment
      · rfl
      · exact absurd hx hop
    exact ⟨hopf.symm, rfl, fun _ => rfl, fun hcon _ => absurd hcon hop⟩

/-- C7 (witness): the amended theorem at a concrete verified request with a
configured callback that succeeds, so the request is forwarded. -/
theorem onPayment_await_amended_witness :
    ¬ ((str "P" : S) ≠ [] ∧ (serverGetLive [] (str "P") 0).isSome)
    ∧ (str "sig" : S) ≠ [] ∧ (str "P" : S) ≠ []
    ∧ (fun (_ : S) (_ : S) (_ : ℚ) (_ : S) => true) (str "sig") (str "W1") 1 (str "USDC")
        = true
    ∧ (((dns402Handler ⟨str "W1", 1, str "USDC", none, true⟩ [] 0 (str "sig") (str "P")
          (fun _ _ _ _ => true) true).onPaymentCalled = true)
      ∧ (dns402Handler ⟨str "W1", 1, str "USDC", none, true⟩ [] 0 (str "sig") (str "P")
          (fun _ _ _ _ => true) true).sessions
        = mapSet [] (str "P") ⟨str "P", str "sig", 0 + serverTTLms ⟨str "W1", 1, str "USDC", none, true⟩⟩
      ∧ ((true : Bool) = false ∨ (true : Bool) = true →
          (dns402Handler ⟨str "W1", 1, str "USDC", none, true⟩ [] 0 (str "sig") (str "P")
            (fun _ _ _ _ => true) true).outcome = .forward)
      ∧ ((true : Bool) = true → (true : Bool) = false →
          (dns402Handler ⟨str "W1", 1, str "USDC", none, true⟩ [] 0 (str "sig") (str "P")
            (fun _ _ _ _ => true) true).outcome = .threw)) :=
  ⟨by decide, by decide, by decide, rfl,
   onPayment_await_amended ⟨str "W1", 1, str "USDC", none, true⟩ [] 0 (str "sig") (str "P")
     (fun _ _ _ _ => true) true (by decide) (by decide) (by decide) rfl⟩

/-! ## Claim C6: session store monotonicity -/

lemma mapGet_cons_self {α : Type} {e : S × α} {m : List (S × α)} {k : S}
    (h : e.1 = k) : mapGet (e :: m) k = some e.2 := by
  simp [mapGet, List.find?, h]

lemma mapGet_cons_ne {α : Type} {e : S × α} {m : List (S × α)} {k : S}
    (h : e.1 ≠ k) : mapGet (e :: m) k = mapGet m k := by
  simp [mapGet, List.find?, h]

lemma keyOnly_mapSet (m0 : List (S × PaymentSession)) (k : S) (sess : PaymentSession) :
    ∀ e ∈ mapSet m0 k sess, e.1 = k → e.2 = sess := by
  intro e he hk
  rcases List.mem_cons.mp he with h | h
  · rw [h]
  · have hf := List.of_mem_filter h
    simp at hf
    exact absurd hk hf

lemma keyOnly_sweep (m : List (S × PaymentSession)) (u : ℤ) (k : S)
    (sess : PaymentSession) (h : ∀ e ∈ m, e.1 = k → e.2 = sess) :
    ∀ e ∈ sweepSessions m u, e.1 = k → e.2 = sess := by
  intro e he
  exact h e (List.mem_of_mem_filter he)

lemma mapGet_sweep_kept (m : List (S × PaymentSession)) (u : ℤ) (k : S)
    (sess : PaymentSession) (hget : mapGet m k = some sess)
    (hkeep : ¬ sess.expiresAt < u) :
    mapGet (sweepSessions m u) k = some sess := by
  induction m with
  | nil => simp [mapGet, List.find?] at hget
  | cons e m ih =>
    by_cases hek : e.1 = k
    · rw [mapGet_cons_self hek] at hget
      have he2 : e.2 = sess := by
        injection hget
      rw [sweepSessions, List.filter_cons, if_pos (by simp [he2, hkeep])]
      rw [mapGet_cons_self hek, he2]
    · rw [mapGet_cons_ne hek] at hget
      rw [sweepSessions, List.filter_cons]
      by_cases hke : (decide (¬ e.2.expiresAt < u)) = true
      · rw [if_pos hke, mapGet_cons_ne hek]
        exact ih hget
      · rw [if_neg hke]
        exact ih hget

lemma mapGet_mem {α : Type} {m : List (S × α)} {k : S} {v : α}
    (h : mapGet m k = some v) : ∃ e ∈ m, e.1 = k ∧ e.2 = v := by
  rw [mapGet] at h
  cases hf : m.find? (fun e => decide (e.1 = k)) with
  | none => rw [hf] at h; exact absurd h (by simp)
  | some e =>
    rw [hf] at h
    refine ⟨e, List.mem_of_find?_eq_some hf, ?_, ?_⟩
    · have := List.find?_some hf
      simpa using this
    · simpa using h

lemma mapGet_keyOnly (m : List (S × PaymentSession)) (k : S) (sess : PaymentSession)
    (honly : ∀ e ∈ m, e.1 = k → e.2 = sess) :
    mapGet m k = some sess ∨ mapGet m k = none := by
  cases hg : mapGet m k with
  | none => exact Or.inr rfl
  | some v =>
    left
    obtain ⟨e, hmem, hek, hev⟩ := mapGet_mem hg
    rw [← hev, honly e hmem hek]

lemma fold_sweep_keyOnly (sweeps : List ℤ) (m : List (S × PaymentSession)) (k : S)
    (sess : PaymentSession) (honly : ∀ e ∈ m, e.1 = k → e.2 = sess) :
    ∀ e ∈ sweeps.foldl sweepSessions m, e.1 = k → e.2 = sess := by
  induction sweeps generalizing m with
  | nil => exact honly
  | cons u us ih => exact ih (sweepSessions m u) (keyOnly_sweep m u k sess honly)

lemma fold_sweep_get (sweeps : List ℤ) (m : List (S × PaymentSession)) (k : S)
    (sess : PaymentSession) (honly : ∀ e ∈ m, e.1 = k → e.2 = sess)
    (hget : mapGet m k = some sess) (hall : ∀ u ∈ sweeps, ¬ sess.expiresAt < u) :
    mapGet (sweeps.foldl sweepSessions m) k = some sess := by
  induction sweeps generalizing m with
  | nil => exact hget
  | cons u us ih =>
    rw [List.foldl_cons]
    exact ih (sweepSessions m u) (keyOnly_sweep m u k sess honly)
      (mapGet_sweep_kept m u k sess hget (hall u (by simp)))
      (fun x hx => hall x (by simp [hx]))

/-- C6: session-store monotonicity.  Once a session is stored under key `k`
with expiry `e`, any sequence of sweeps that have (monotone real time) all
run no later than the query time cannot make a read at a time before `e`
miss, and a read at or after `e` always returns none (lazy expiry — no
expired session is ever returned).  The same holds for the client-side
cache read `DNS402Client.getSession`. -/
theorem session_store_monotonic :
    (∀ (m0 : List (S × PaymentSession)) (k : S) (sess : PaymentSession)
      (sweeps : List ℤ) (t : ℤ),
      (∀ u ∈ sweeps, u ≤ t) →
      ((t < sess.expiresAt →
        serverGetLive (sweeps.foldl sweepSessions (mapSet m0 k sess)) k t = some sess)
      ∧ (sess.expiresAt ≤ t →
        serverGetLive (sweeps.foldl sweepSessions (mapSet m0 k sess)) k t = none)))
    ∧ (∀ (cache0 : List (S × ClientSession)) (domain : S) (cs : ClientSession) (t : ℤ),
      (t < cs.expiresAt →
        DNS402Client.getSession (mapSet cache0 domain cs) domain t = some cs)
      ∧ (cs.expiresAt ≤ t →
        DNS402Client.getSession (mapSet cache0 domain cs) domain t = none)) := by
  constructor
  · intro m0 k sess sweeps t hall
    have honly := keyOnly_mapSet m0 k sess
    have hself : mapGet (mapSet m0 k sess) k = some sess := by
      rw [mapGet_mapSet]
      simp
    constructor
    · intro ht
      have hkept : mapGet (sweeps.foldl sweepSessions (mapSet m0 k sess)) k = some sess :=
        fold_sweep_get sweeps _ k sess honly hself
          (fun u hu => by have := hall u hu; omega)
      rw [serverGetLive, hkept]
      show (if sess.expiresAt > t then some sess else none) = some sess
      rw [if_pos (by omega)]
    · intro ht
      rcases mapGet_keyOnly (sweeps.foldl sweepSessions (mapSet m0 k sess)) k sess
          (fold_sweep_keyOnly sweeps _ k sess honly) with hg | hg
      · rw [serverGetLive, hg]
        show (if sess.expiresAt > t then some sess else none) = none
        rw [if_neg (by omega)]
      · rw [serverGetLive, hg]
  · intro cache0 domain cs t
    have hself : mapGet (mapSet cache0 domain cs) domain = some cs := by
      rw [mapGet_mapSet]
      simp
    constructor
    · intro ht
      rw [DNS402Client.getSession, hself]
      show (if cs.expiresAt > t then some cs else none) = some cs
      rw [if_pos (by omega)]
    · intro ht
      rw [DNS402Client.getSession, hself]
      show (if cs.expiresAt > t then some cs else none) = none
      rw [if_neg (by omega)]

/-- C6 (witness): the monotonicity theorem at a concrete store: key `P`
stored with expiry 100, one sweep at time 50, read at time 60. -/
theorem session_store_monotonic_witness :
    (∀ u ∈ ([50] : List ℤ), u ≤ (60 : ℤ))
    ∧ (((60 : ℤ) < (100 : ℤ) →
        serverGetLive (([50] : List ℤ).foldl sweepSessions
          (mapSet [] (str "P") ⟨str "P", str "sig", 100⟩)) (str "P") 60
          = some ⟨str "P", str "sig", 100⟩)
      ∧ ((100 : ℤ) ≤ (60 : ℤ) →
        serverGetLive (([50] : List ℤ).foldl sweepSessions
          (mapSet [] (str "P") ⟨str "P", str "sig", 100⟩)) (str "P") 60 = none)) :=
  ⟨by decide,
   session_store_monotonic.1 [] (str "P") ⟨str "P", str "sig", 100⟩ [50] 60 (by decide)⟩


/-! ## Claim C5: pay is idempotent per live session -/

/-- C5: whenever the cache holds an unexpired session for the domain, a
further `pay(domain)` call within the TTL returns the cached session
unchanged: the cache, the call counters and the list of records actually
paid are untouched, so the ledger-send collaborator is not called — the
client never pays twice for the same unexpired session. -/
theorem pay_idempotent_on_live_session :
    ∀ (cfg : ClientConfig) (env : ClientEnv) (cache : List (S × ClientSession))
      (now : ℤ) (domain : S) (st : CState) (s : ClientSession),
      mapGet cache domain = some s → s.expiresAt > now →
      DNS402Client.pay cfg env cache now domain st = (.ok s, cache, st) := by
  intro cfg env cache now domain st s hget hlive
  rw [DNS402Client.pay, hget]
  show (if s.expiresAt > now then ((.ok s : Except FetchErr ClientSession), cache, st)
    else DNS402Client.payMiss cfg env cache now domain st) = (.ok s, cache, st)
  rw [if_pos hlive]

/-- C5 (witness): the idempotence theorem at a concrete cache holding a
live session for domain `d` (expiry 100, queried at time 10). -/
theorem pay_idempotent_on_live_session_witness :
    mapGet [(str "d", (⟨str "d", ⟨str "sig", str "P", 0⟩, 100⟩ : ClientSession))] (str "d")
        = some ⟨str "d", ⟨str "sig", str "P", 0⟩, 100⟩
    ∧ (100 : ℤ) > 10
    ∧ DNS402Client.pay ⟨none, true⟩
        ⟨fun _ => 402, fun _ => none, fun _ _ => .error ()⟩
        [(str "d", ⟨str "d", ⟨str "sig", str "P", 0⟩, 100⟩)] 10 (str "d") st0
        = (.ok ⟨str "d", ⟨str "sig", str "P", 0⟩, 100⟩,
           [(str "d", ⟨str "d", ⟨str "sig", str "P", 0⟩, 100⟩)], st0) :=
  ⟨by decide, by decide,
   pay_idempotent_on_live_session ⟨none, true⟩
     ⟨fun _ => 402, fun _ => none, fun _ _ => .error ()⟩
     [(str "d", ⟨str "d", ⟨str "sig", str "P", 0⟩, 100⟩)] 10 (str "d") st0
     ⟨str "d", ⟨str "sig", str "P", 0⟩, 100⟩ (by decide) (by decide)⟩

/-! ## Claim C9: the record actually paid comes from a second discover -/

/-- C9: when auto-pay is enabled, the cache misses and the first request
returns 402, the configured `maxAmount`/`currency` policy is checked only
against the record `r0` of the first `discover()` call; `pay` then performs
a second, independent `discover()` and the ledger-send is invoked with that
second record `r1`, which is NOT re-checked against the policy — `r1` is
arbitrary here, in particular it may exceed `maxAmount` or change currency,
and the payment still goes through. -/
theorem pay_uses_second_discover :
    ∀ (cfg : ClientConfig) (env : ClientEnv) (cache : List (S × ClientSession))
      (now : ℤ) (domain : S) (ap : AutoPayCfg) (r0 r1 : DNS402Record)
      (proof : PaymentProofM),
      mapGet cache domain = none →
      env.http 0 = 402 →
      env.dns 0 = some r0 → env.dns 1 = some r1 →
      cfg.autoPay = some ap → ap.enabled = true →
      jsPriceGT r0.price ap.maxAmount = false → r0.currency = ap.currency →
      env.send 0 r1 = .ok proof →
      ((DNS402Client.fetch cfg env cache now domain).2.2.sent = [r1]
      ∧ (DNS402Client.fetch cfg env cache now domain).2.2.dnsCalls = 2
      ∧ (DNS402Client.fetch cfg env cache now domain).1
          = .ok ⟨1, env.http 1, some proof⟩) := by
  intro cfg env cache now domain ap r0 r1 proof hcache hhttp0 hdns0 hdns1 hap hen
    hprice hcur hsend
  have hfetch : DNS402Client.fetch cfg env cache now domain
      = DNS402Client.fetchMiss cfg env cache now domain := by
    rw [DNS402Client.fetch, hcache]
  rw [hfetch]
  simp only [DNS402Client.fetchMiss, DNS402Client.pay, DNS402Client.payMiss, doHttp,
    doDiscover, doSend, st0, hcache, hhttp0, hdns0, hdns1, hap, hen, hprice, hcur, hsend]
  simp

/-- C9 (witness): concrete run in which the first discovered record costs 1
(within the 5-unit policy) but the second discovered record costs 999 —
the ledger-send is still invoked with the second record. -/
theorem pay_uses_second_discover_witness :
    mapGet ([] : List (S × ClientSession)) (str "d") = none
    ∧ jsPriceGT (some (1 : ℚ)) 5 = false
    ∧ ((DNS402Client.fetch ⟨some ⟨true, 5, str "USDC"⟩, true⟩
          ⟨fun _ => 402,
           fun n => if n = 0
             then some ⟨str "dns402", some 1, str "USDC", str "solana", str "W1",
               none, str "per-request", none, none⟩
             else some ⟨str "dns402", some 999, str "USDC", str "solana", str "W1",
               none, str "per-request", none, none⟩,
           fun _ _ => .ok ⟨str "sig", str "P", 0⟩⟩
          [] 0 (str "d")).2.2.sent
        = [⟨str "dns402", some 999, str "USDC", str "solana", str "W1",
            none, str "per-request", none, none⟩]
      ∧ (DNS402Client.fetch ⟨some ⟨true, 5, str "USDC"⟩, true⟩
          ⟨fun _ => 402,
           fun n => if n = 0
             then some ⟨str "dns402", some 1, str "USDC", str "solana", str "W1",
               none, str "per-request", none, none⟩
             else some ⟨str "dns402", some 999, str "USDC", str "solana", str "W1",
               none, str "per-request", none, none⟩,
           fun _ _ => .ok ⟨str "sig", str "P", 0⟩⟩
          [] 0 (str "d")).2.2.dnsCalls = 2
      ∧ (DNS402Client.fetch ⟨some ⟨true, 5, str "USDC"⟩, true⟩
          ⟨fun _ => 402,
           fun n => if n = 0
             then some ⟨str "dns402", some 1, str "USDC", str "solana", str "W1",
               none, str "per-request", none, none⟩
             else some ⟨str "dns402", some 999, str "USDC", str "solana", str "W1",
               none, str "per-request", none, none⟩,
           fun _ _ => .ok ⟨str "sig", str "P", 0⟩⟩
          [] 0 (str "d")).1
        = .ok ⟨1, 402, some ⟨str "sig", str "P", 0⟩⟩) :=
  ⟨rfl,
   by
     rw [show jsPriceGT (some (1 : ℚ)) 5 = decide ((1 : ℚ) > 5) from rfl]
     exact decide_eq_false (by norm_num),
   pay_uses_second_discover ⟨some ⟨true, 5, str "USDC"⟩, true⟩
     ⟨fun _ => 402,
      fun n => if n = 0
        then some ⟨str "dns402", some 1, str "USDC", str "solana", str "W1",
          none, str "per-request", none, none⟩
        else some ⟨str "dns402", some 999, str "USDC", str "solana", str "W1",
          none, str "per-request", none, none⟩,
      fun _ _ => .ok ⟨str "sig", str "P", 0⟩⟩
     [] 0 (str "d") ⟨true, 5, str "USDC"⟩
     ⟨str "dns402", some 1, str "USDC", str "solana", str "W1", none,
       str "per-request", none, none⟩
     ⟨str "dns402", some 999, str "USDC", str "solana", str "W1", none,
       str "per-request", none, none⟩
     ⟨str "sig", str "P", 0⟩
     rfl rfl rfl rfl rfl rfl
     (by
       rw [show jsPriceGT (some (1 : ℚ)) 5 = decide ((1 : ℚ) > 5) from rfl]
       exact decide_eq_false (by norm_num))
     rfl rfl⟩

/-! ## Claim C4: at most one payment, exactly one retry -/

lemma payMiss_out (cfg : ClientConfig) (env : ClientEnv) (cache : List (S × ClientSession))
    (now : ℤ) (domain : S) (st : CState) :
    DNS402Client.payMiss cfg env cache now domain st
      = match env.dns st.dnsCalls with
        | none => (.error .noRecord, cache, { st with dnsCalls := st.dnsCalls + 1 })
        | some record =>
          match env.send st.payments record with
          | .error _ =>
            (.error .ledger, cache,
             { st with
                dnsCalls := st.dnsCalls + 1
                payments := st.payments + 1
                sent := st.sent ++ [record] })
          | .ok proof =>
            (.ok ⟨domain, proof, now + recordTTL record * 1000⟩,
             (if cfg.sessionCache
              then mapSet cache domain ⟨domain, proof, now + recordTTL record * 1000⟩
              else cache),
             { st with
                dnsCalls := st.dnsCalls + 1
                payments := st.payments + 1
                sent := st.sent ++ [record] }) := by
  cases hd : env.dns st.dnsCalls with
  | none => simp only [DNS402Client.payMiss, doDiscover, hd]
  | some record =>
    cases hs : env.send st.payments record with
    | error e => simp only [DNS402Client.payMiss, doDiscover, doSend, hd, hs]
    | ok proof => simp only [DNS402Client.payMiss, doDiscover, doSend, hd, hs]

lemma pay_eq_payMiss (cfg : ClientConfig) (env : ClientEnv)
    (cache : List (S × ClientSession)) (now : ℤ) (domain : S) (st : CState)
    (hnolive : ∀ s, mapGet cache domain = some s → ¬ s.expiresAt > now) :
    DNS402Client.pay cfg env cache now domain st
      = DNS402Client.payMiss cfg env cache now domain st := by
  cases hc : mapGet cache domain with
  | none => rw [DNS402Client.pay, hc]
  | some s =>
    rw [DNS402Client.pay, hc]
    show (if s.expiresAt > now then ((.ok s : Except FetchErr ClientSession), cache, st)
      else DNS402Client.payMiss cfg env cache now domain st) = _
    rw [if_neg (hnolive s hc)]

lemma fetchMiss_single (cfg : ClientConfig) (env : ClientEnv)
    (cache : List (S × ClientSession)) (now : ℤ) (domain : S)
    (hserv : ∀ n, env.http n = 402)
    (hnolive : ∀ s, mapGet cache domain = some s → ¬ s.expiresAt > now) :
    ((DNS402Client.fetchMiss cfg env cache now domain).2.2.payments ≤ 1
    ∧ (DNS402Client.fetchMiss cfg env cache now domain).2.2.httpCalls ≤ 2
    ∧ (∀ resp, (DNS402Client.fetchMiss cfg env cache now domain).1 = .ok resp →
        resp.status = 402)
    ∧ ((DNS402Client.fetchMiss cfg env cache now domain).2.2.payments = 1 →
        ∀ resp, (DNS402Client.fetchMiss cfg env cache now domain).1 = .ok resp →
          resp.callIndex = 1 ∧ resp.status = env.http 1)) := by
  have h402 : ¬ ((402 : ℕ) ≠ 402) := by simp
  cases hd0 : env.dns 0 with
  | none =>
    simp only [DNS402Client.fetchMiss, doHttp, doDiscover, st0, hserv, if_neg h402, hd0]
    exact ⟨by simp, by simp, by intro resp h; simp at h, by intro h; simp at h⟩
  | some r0 =>
    cases hap : cfg.autoPay with
    | none =>
      simp only [DNS402Client.fetchMiss, doHttp, doDiscover, st0, hserv, if_neg h402,
        hd0, hap]
      exact ⟨by simp, by simp, by intro resp h; simp at h, by intro h; simp at h⟩
    | some ap =>
      by_cases hen : ap.enabled = true
      · by_cases hpr : jsPriceGT r0.price ap.maxAmount = true
        · simp only [DNS402Client.fetchMiss, doHttp, doDiscover, st0, hserv, if_neg h402,
            hd0, hap, if_pos hen, if_pos hpr]
          exact ⟨by simp, by simp, by intro resp h; simp at h, by intro h; simp at h⟩
        · by_cases hcu : r0.currency ≠ ap.currency
          · simp only [DNS402Client.fetchMiss, doHttp, doDiscover, st0, hserv,
              if_neg h402, hd0, hap, if_pos hen, if_neg hpr, if_pos hcu]
            exact ⟨by simp, by simp, by intro resp h; simp at h, by intro h; simp at h⟩
          · cases hd1 : env.dns 1 with
            | none =>
              simp only [DNS402Client.fetchMiss, doHttp, doDiscover, st0, hserv,
                if_neg h402, hd0, hap, if_pos hen, if_neg hpr, if_neg hcu,
                pay_eq_payMiss cfg env cache now domain _ hnolive, payMiss_out, hd1]
              exact ⟨by simp, by simp, by intro resp h; simp at h, by intro h; simp at h⟩
            | some r1 =>
              cases hs : env.send 0 r1 with
              | error e =>
                simp only [DNS402Client.fetchMiss, doHttp, doDiscover, st0, hserv,
                  if_neg h402, hd0, hap, if_pos hen, if_neg hpr, if_neg hcu,
                  pay_eq_payMiss cfg env cache now domain _ hnolive, payMiss_out, hd1, hs]
                exact ⟨by simp, by simp, by intro resp h; simp at h,
                  by intro _ resp h; simp at h⟩
              | ok proof =>
                simp only [DNS402Client.fetchMiss, doHttp, doDiscover, st0, hserv,
                  if_neg h402, hd0, hap, if_pos hen, if_neg hpr, if_neg hcu,
                  pay_eq_payMiss cfg env cache now domain _ hnolive, payMiss_out, hd1, hs]
                refine ⟨by simp, by simp, ?_, ?_⟩
                · intro resp h
                  simp only [Except.ok.injEq] at h
                  rw [← h]
                · intro _ resp h
                  simp only [Except.ok.injEq] at h
                  rw [← h]
                  exact ⟨rfl, rfl⟩
      · simp only [DNS402Client.fetchMiss, doHttp, doDiscover, st0, hserv, if_neg h402,
          hd0, hap, if_neg hen]
        exact ⟨by simp, by simp, by intro resp h; simp at h, by intro h; simp at h⟩

/-- C4: against a server that always answers 402, one `fetch()` invocation
performs at most one payment attempt and at most two HTTP calls (the
original request and exactly one retry); any response it returns is the
server's 402 verbatim, and when a payment was made the returned response is
exactly the retry (call index 1) — the second 402 is returned, never paid
again within the same invocation. -/
theorem client_single_retry :
    ∀ (cfg : ClientConfig) (env : ClientEnv) (cache : List (S × ClientSession))
      (now : ℤ) (domain : S),
      (∀ n, env.http n = 402) →
      ((DNS402Client.fetch cfg env cache now domain).2.2.payments ≤ 1
      ∧ (DNS402Client.fetch cfg env cache now domain).2.2.httpCalls ≤ 2
      ∧ (∀ resp, (DNS402Client.fetch cfg env cache now domain).1 = .ok resp →
          resp.status = 402)
      ∧ ((DNS402Client.fetch cfg env cache now domain).2.2.payments = 1 →
          ∀ resp, (DNS402Client.fetch cfg env cache now domain).1 = .ok resp →
            resp.callIndex = 1 ∧ resp.status = env.http 1)) := by
  intro cfg env cache now domain hserv
  cases hc : mapGet cache domain with
  | some s =>
    by_cases hlive : s.expiresAt > now
    · have hhit : DNS402Client.fetch cfg env cache now domain
          = (.ok ⟨0, env.http 0, some s.proof⟩, cache, (⟨1, 0, 0, []⟩ : CState)) := by
        rw [DNS402Client.fetch, hc]
        show (if s.expiresAt > now then _ else DNS402Client.fetchMiss cfg env cache now domain)
          = _
        rw [if_pos hlive]
        rfl
      rw [hhit]
      refine ⟨by simp, by simp, ?_, ?_⟩
      · intro resp h
        simp only [Except.ok.injEq] at h
        rw [← h]
        exact hserv 0
      · intro hcon
        simp at hcon
    · have hmiss : DNS402Client.fetch cfg env cache now domain
          = DNS402Client.fetchMiss cfg env cache now domain := by
        rw [DNS402Client.fetch, hc]
        show (if s.expiresAt > now then _ else DNS402Client.fetchMiss cfg env cache now domain)
          = _
        rw [if_neg hlive]
      rw [hmiss]
      exact fetchMiss_single cfg env cache now domain hserv
        (fun s2 hs2 => by
          rw [hc] at hs2
          injection hs2 with h2
          rw [← h2]
          exact hlive)
  | none =>
    have hmiss : DNS402Client.fetch cfg env cache now domain
        = DNS402Client.fetchMiss cfg env cache now domain := by
      rw [DNS402Client.fetch, hc]
    rw [hmiss]
    exact fetchMiss_single cfg env cache now domain hserv
      (fun s2 hs2 => by
        rw [hc] at hs2
        exact absurd hs2 (by simp))

/-- C4 (witness): the single-retry bound at a concrete always-402 server
with auto-pay enabled; the invocation makes exactly one payment and returns
the retry response (call index 1, status 402). -/
theorem client_single_retry_witness :
    (∀ n, (fun (_ : ℕ) => 402) n = 402)
    ∧ ((DNS402Client.fetch ⟨some ⟨true, 5, str "USDC"⟩, true⟩
          ⟨fun _ => 402,
           fun _ => some ⟨str "dns402", some 1, str "USDC", str "solana", str "W1",
             none, str "per-request", none, none⟩,
           fun _ _ => .ok ⟨str "sig", str "P", 0⟩⟩
          [] 0 (str "d")).2.2.payments ≤ 1
      ∧ (DNS402Client.fetch ⟨some ⟨true, 5, str "USDC"⟩, true⟩
          ⟨fun _ => 402,
           fun _ => some ⟨str "dns402", some 1, str "USDC", str "solana", str "W1",
             none, str "per-request", none, none⟩,
           fun _ _ => .ok ⟨str "sig", str "P", 0⟩⟩
          [] 0 (str "d")).2.2.httpCalls ≤ 2
      ∧ (∀ resp, (DNS402Client.fetch ⟨some ⟨true, 5, str "USDC"⟩, true⟩
          ⟨fun _ => 402,
           fun _ => some ⟨str "dns402", some 1, str "USDC", str "solana", str "W1",
             none, str "per-request", none, none⟩,
           fun _ _ => .ok ⟨str "sig", str "P", 0⟩⟩
          [] 0 (str "d")).1 = .ok resp → resp.status = 402)
      ∧ ((DNS402Client.fetch ⟨some ⟨true, 5, str "USDC"⟩, true⟩
          ⟨fun _ => 402,
           fun _ => some ⟨str "dns402", some 1, str "USDC", str "solana", str "W1",
             none, str "per-request", none, none⟩,
           fun _ _ => .ok ⟨str "sig", str "P", 0⟩⟩
          [] 0 (str "d")).2.2.payments = 1 →
          ∀ resp, (DNS402Client.fetch ⟨some ⟨true, 5, str "USDC"⟩, true⟩
            ⟨fun _ => 402,
             fun _ => some ⟨str "dns402", some 1, str "USDC", str "solana", str "W1",
               none, str "per-request", none, none⟩,
             fun _ _ => .ok ⟨str "sig", str "P", 0⟩⟩
            [] 0 (str "d")).1 = .ok resp →
            resp.callIndex = 1 ∧ resp.status = (fun (_ : ℕ) => 402) 1)) :=
  ⟨fun _ => rfl,
   client_single_retry ⟨some ⟨true, 5, str "USDC"⟩, true⟩
     ⟨fun _ => 402,
      fun _ => some ⟨str "dns402", some 1, str "USDC", str "solana", str "W1",
        none, str "per-request", none, none⟩,
      fun _ _ => .ok ⟨str "sig", str "P", 0⟩⟩
     [] 0 (str "d") (fun _ => rfl)⟩

